import Mathlib

/-!
# RNPxl / NuXL false-discovery-rate cascade and protein accession partition

A shallow embedding of

* `RNPxlFDR::PeptideAndXLQValueAtPSMLevel`
  (`src/openms/source/ANALYSIS/RNPXL/RNPxlFDR.cpp`), and
* `RNPxlProteinReport::mapAccessionToTDProteins`
  (`src/openms/include/OpenMS/ANALYSIS/NUXL/NuXLReport.h`).

Conventions of the embedding.

* A C++ `double` is a rational number. The code only compares thresholds and
  scores (`>`, `<`, `==`, `std::sort`), and the finite doubles embed into `ℚ`
  with their order; NaN is outside the model.
* A `std::vector` is a `List`; an in-out vector parameter is an argument and a
  component of the result.
* A `ProteinHit*` into the vector owned by the protein identification is the
  index of that element.
* A `std::map<String, ProteinHit*>` is a list of key/value pairs with pairwise
  distinct keys; the key order of `std::map` is not modelled.
* Files written by `IdXMLFile::store` and `TextFile::store` are recorded, in
  the order of the calls, in the result.
-/

namespace OpenMS

/-! ## Data model -/

/-- A peptide hit: the attributes of `PeptideHit` that the code reads. `isXL`
is the meta value `"NuXL:isXL"` converted to `int`, `target_decoy` the meta
value `"target_decoy"`, `accessions` what `extractProteinAccessionsSet`
returns. -/
structure PeptideHit where
  sequence : String
  score : ℚ
  rank : Nat
  charge : Int
  accessions : List String
  isXL : Int
  target_decoy : String
  deriving DecidableEq

/-- One spectrum's identification record with its ordered list of hits. -/
structure PeptideIdentification where
  identifier : String
  rt : ℚ
  mz : ℚ
  hits : List PeptideHit
  deriving DecidableEq

/-- The method `PeptideIdentification::setHits` on a copy of the record. -/
def PeptideIdentification.setHits (pi : PeptideIdentification)
    (hits : List PeptideHit) : PeptideIdentification :=
  { pi with hits := hits }

/-- A protein record. `target_decoy` is the meta value `"target_decoy"`,
`none` when the record carries no such annotation. -/
structure ProteinHit where
  accession : String
  sequence : String
  target_decoy : Option String
  deriving DecidableEq

/-- One identification run's protein records. -/
structure ProteinIdentification where
  identifier : String
  hits : List ProteinHit
  deriving DecidableEq

/-! ## Population split (RNPxlFDR.cpp, lines 83-99) -/

/-- One pass of the inner loop body (lines 88-95) on the pair
`(pep_ph, xl_ph)`. -/
def splitHit (acc : List PeptideHit × List PeptideHit) (ph : PeptideHit) :
    List PeptideHit × List PeptideHit :=
  if ph.isXL = 0 then
    if acc.1.isEmpty && acc.2.isEmpty then (acc.1 ++ [ph], acc.2) else acc
  else
    if acc.1.isEmpty && acc.2.isEmpty then (acc.1, acc.2 ++ [ph]) else acc

/-- The inner loop (lines 85-96): `pep_ph` and `xl_ph` after all hits of the
record have been visited. -/
def splitHits (hits : List PeptideHit) : List PeptideHit × List PeptideHit :=
  hits.foldl splitHit ([], [])

/-- The outer loop body (lines 84-98) on the pair `(pep_pi, xl_pi)`. -/
def splitRecord (acc : List PeptideIdentification × List PeptideIdentification)
    (pi : PeptideIdentification) :
    List PeptideIdentification × List PeptideIdentification :=
  let ph := splitHits pi.hits
  let pep_pi := if ph.1.isEmpty then acc.1 else acc.1 ++ [pi.setHits ph.1]
  let xl_pi := if ph.2.isEmpty then acc.2 else acc.2 ++ [pi.setHits ph.2]
  (pep_pi, xl_pi)

/-- The outer loop (lines 83-99) started on the caller's `pep_pi`, `xl_pi`. -/
def splitPopulations (peptide_ids : List PeptideIdentification)
    (pep_pi xl_pi : List PeptideIdentification) :
    List PeptideIdentification × List PeptideIdentification :=
  peptide_ids.foldl splitRecord (pep_pi, xl_pi)

/-! ## Collaborators -/

/-- The parameters of `FalseDiscoveryRate` that the code sets (lines 74-81). -/
structure FDRParam where
  add_decoy_proteins : Bool
  add_decoy_peptides : Bool
  use_all_hits : Bool
  deriving DecidableEq

/-- A list of text lines, as held by `TextFile`. -/
abbrev TextFile := List String

/-- Functions the code calls whose bodies are not part of the sources at hand
and whose results no statement below depends on: the q-value estimator
`FalseDiscoveryRate::apply` with its default parameters, the number formatting
`String::number(value, digits)`, and the lines that
`RNPxlProteinReport::annotateProteinModificationForTopHits` adds to the report
file. -/
structure Collaborators where
  fdrDefaults : FDRParam
  fdrApply : FDRParam → List PeptideIdentification → List PeptideIdentification
  number : ℚ → Nat → String
  annotateProteinModificationForTopHits :
    List ProteinIdentification → List PeptideIdentification → TextFile

/-- A hit is labelled decoy when its `"target_decoy"` annotation is
`"decoy"`. -/
def PeptideHit.isDecoy (h : PeptideHit) : Bool :=
  h.target_decoy == "decoy"

/-- Modelled from the spec: `IDFilter::removeDecoyHits` is not part of the
sources at hand. The spec says that decoy hits "are removed" after the q-value
has been assigned and that they "never appear in any persisted output": every
hit labelled decoy is dropped from every record. -/
def IDFilter.removeDecoyHits (ids : List PeptideIdentification) :
    List PeptideIdentification :=
  ids.map fun pi => pi.setHits (pi.hits.filter fun h => !h.isDecoy)

/-- Modelled from the spec: `IDFilter::filterHitsByScore` is not part of the
sources at hand. The spec says that the output at threshold 0.01 contains
"only those at or below q-value 0.01": every record keeps the hits whose score
(the q-value once the estimator has run) is at most the threshold. -/
def IDFilter.filterHitsByScore (ids : List PeptideIdentification)
    (threshold_score : ℚ) : List PeptideIdentification :=
  ids.map fun pi => pi.setHits (pi.hits.filter fun h => decide (h.score ≤ threshold_score))

/-- The accessions referenced by the hits of a list of records. -/
def referencedAccessions (peptides : List PeptideIdentification) : List String :=
  (peptides.map fun pi => (pi.hits.map fun h => h.accessions).flatten).flatten

/-- Modelled from the spec: `IDFilter::removeUnreferencedProteins` is not part
of the sources at hand. The spec says that "a protein record survives into a
threshold's report if and only if it is referenced by at least one surviving
peptide hit at that threshold": every run keeps the protein records whose
accession is referenced by a hit of the given records. -/
def IDFilter.removeUnreferencedProteins (proteins : List ProteinIdentification)
    (peptides : List PeptideIdentification) : List ProteinIdentification :=
  proteins.map fun prot =>
    { prot with hits := prot.hits.filter fun p => decide (p.accession ∈ referencedAccessions peptides) }

/-! ## PeptideAndXLQValueAtPSMLevel (RNPxlFDR.cpp, lines 64-141) -/

/-- The class `RNPxlFDR` with its only member. -/
structure RNPxlFDR where
  report_top_hits_ : Nat

/-- A call of `IdXMLFile::store`. -/
structure IdXMLStore where
  path : String
  prots : List ProteinIdentification
  peps : List PeptideIdentification
  deriving DecidableEq

/-- A call of `TextFile::store`. -/
structure TextStore where
  path : String
  lines : TextFile
  deriving DecidableEq

/-- What one iteration of the threshold loop (lines 122-140) writes. -/
structure XLOutput where
  xlFDR : ℚ
  idXML : IdXMLStore
  tsv : TextStore
  deriving DecidableEq

/-- What a call of `PeptideAndXLQValueAtPSMLevel` leaves behind: the in-out
vectors `pep_pi` and `xl_pi`, the peptide file, and the files of the threshold
loop in the order they are written. -/
structure Outcome where
  pep_pi : List PeptideIdentification
  xl_pi : List PeptideIdentification
  peptides : IdXMLStore
  XLs : List XLOutput
  deriving DecidableEq

/-- The estimator parameters after lines 73-81. -/
def RNPxlFDR.fdrParam (self : RNPxlFDR) (c : Collaborators) : FDRParam :=
  let p := c.fdrDefaults
  let p := { p with add_decoy_proteins := true }
  let p := { p with add_decoy_peptides := true }
  if self.report_top_hits_ ≥ 2 then { p with use_all_hits := true } else p

/-- The algorithm `std::replace`. -/
def replace (l : List ℚ) (old_value new_value : ℚ) : List ℚ :=
  l.map fun x => if x = old_value then new_value else x

/-- The call `std::sort(first, last, greater<double>())`. Numbers that compare
equal are equal, so every sorting algorithm returns this list. -/
def sortGreater (l : List ℚ) : List ℚ :=
  l.insertionSort (· ≥ ·)

/-- The threshold list the loop runs over (lines 120-121). -/
def normalizedThresholds (xl_PSM_qvalue_thresholds : List ℚ) : List ℚ :=
  sortGreater (replace xl_PSM_qvalue_thresholds 0 1)

/-- The crosslink population after lines 83-105: split, q-values, decoys
removed. This is the value of `xl_pi` when the threshold loop starts. -/
def RNPxlFDR.xlDecoyStripped (self : RNPxlFDR) (c : Collaborators)
    (peptide_ids pep_pi xl_pi : List PeptideIdentification) :
    List PeptideIdentification :=
  IDFilter.removeDecoyHits
    (c.fdrApply (self.fdrParam c) (splitPopulations peptide_ids pep_pi xl_pi).2)

/-- The peptide population after lines 83-106: split, q-values, decoys
removed. This is the value of `pep_pi` when line 108 is reached. -/
def RNPxlFDR.pepDecoyStripped (self : RNPxlFDR) (c : Collaborators)
    (peptide_ids pep_pi xl_pi : List PeptideIdentification) :
    List PeptideIdentification :=
  IDFilter.removeDecoyHits
    (c.fdrApply (self.fdrParam c) (splitPopulations peptide_ids pep_pi xl_pi).1)

/-- One iteration of the threshold loop (lines 123-140): the new value of
`xl_pi` and the two files written. -/
def xlIteration (c : Collaborators) (protein_ids : List ProteinIdentification)
    (out_idxml : String) (xl_pi : List PeptideIdentification) (xlFDR : ℚ) :
    List PeptideIdentification × XLOutput :=
  let xl_pi := if xlFDR > 0 ∧ xlFDR < 1 then IDFilter.filterHitsByScore xl_pi xlFDR else xl_pi
  let tmp_prots := IDFilter.removeUnreferencedProteins protein_ids xl_pi
  (xl_pi,
   { xlFDR := xlFDR
     idXML := ⟨out_idxml ++ c.number xlFDR 4 ++ "_XLs.idXML", tmp_prots, xl_pi⟩
     tsv := ⟨out_idxml ++ "_proteins" ++ c.number xlFDR 4 ++ "_XLs.tsv",
             c.annotateProteinModificationForTopHits tmp_prots xl_pi⟩ })

/-- The threshold loop (lines 122-140) over the thresholds in the given order:
the final value of `xl_pi` and the files written, one entry per iteration. -/
def xlCascade (c : Collaborators) (protein_ids : List ProteinIdentification)
    (out_idxml : String) :
    List ℚ → List PeptideIdentification → List PeptideIdentification × List XLOutput
  | [], xl_pi => (xl_pi, [])
  | xlFDR :: rest, xl_pi =>
    let it := xlIteration c protein_ids out_idxml xl_pi xlFDR
    let tail := xlCascade c protein_ids out_idxml rest it.1
    (tail.1, it.2 :: tail.2)

/-- The function `RNPxlFDR::PeptideAndXLQValueAtPSMLevel`. -/
def RNPxlFDR.PeptideAndXLQValueAtPSMLevel (self : RNPxlFDR) (c : Collaborators)
    (protein_ids : List ProteinIdentification)
    (peptide_ids : List PeptideIdentification)
    (pep_pi : List PeptideIdentification)
    (peptide_PSM_qvalue_threshold : ℚ)
    (xl_pi : List PeptideIdentification)
    (xl_PSM_qvalue_thresholds : List ℚ)
    (out_idxml : String) : Outcome :=
  let split := splitPopulations peptide_ids pep_pi xl_pi
  let xl_pi := c.fdrApply (self.fdrParam c) split.2
  let pep_pi := c.fdrApply (self.fdrParam c) split.1
  let xl_pi := IDFilter.removeDecoyHits xl_pi
  let pep_pi := IDFilter.removeDecoyHits pep_pi
  let pep_pi :=
    if peptide_PSM_qvalue_threshold > 0 ∧ peptide_PSM_qvalue_threshold < 1 then
      IDFilter.filterHitsByScore pep_pi peptide_PSM_qvalue_threshold
    else pep_pi
  let peptides : IdXMLStore :=
    ⟨out_idxml ++ c.number peptide_PSM_qvalue_threshold 4 ++ "_peptides.idXML",
     IDFilter.removeUnreferencedProteins protein_ids pep_pi, pep_pi⟩
  let xl_PSM_qvalue_thresholds := normalizedThresholds xl_PSM_qvalue_thresholds
  let loop := xlCascade c protein_ids out_idxml xl_PSM_qvalue_thresholds xl_pi
  { pep_pi := pep_pi, xl_pi := loop.1, peptides := peptides, XLs := loop.2 }

/-! ## mapAccessionToTDProteins (NuXLReport.h, lines 109-123) -/

/-- A `std::map<String, ProteinHit*>`: accession keys, each with the index of
the record it points to. -/
abbrev AccessionMap := List (String × Nat)

/-- The assignment `m[key] = value` on a `std::map`: the value of an existing
key is overwritten, a new key gets a new entry. -/
def mapAssign : AccessionMap → String → Nat → AccessionMap
  | [], key, value => [(key, value)]
  | (k, v) :: rest, key, value =>
    if k = key then (k, value) :: rest else (k, v) :: mapAssign rest key value

/-- The method `String::hasPrefix`. -/
def hasPrefix (s p : String) : Bool :=
  p.data.isPrefixOf s.data

/-- The expression `protein.getMetaValue("target_decoy").toString()`: a
missing annotation is the empty `DataValue`, whose string is empty. -/
def ProteinHit.targetDecoyString (protein : ProteinHit) : String :=
  protein.target_decoy.getD ""

/-- The condition of line 114. -/
def ProteinHit.hasTargetLabel (protein : ProteinHit) : Bool :=
  hasPrefix protein.targetDecoyString "target"

/-- The loop body (lines 113-122) for the record `protein` stored at index
`i` of the vector. -/
def mapAccessionStep (maps : AccessionMap × AccessionMap) (i : Nat)
    (protein : ProteinHit) : AccessionMap × AccessionMap :=
  if protein.hasTargetLabel then
    (mapAssign maps.1 protein.accession i, maps.2)
  else
    (maps.1, mapAssign maps.2 protein.accession i)

/-- The loop (lines 112-122) over the records from index `i` on. -/
def mapAccessionLoop : List ProteinHit → Nat → AccessionMap × AccessionMap →
    AccessionMap × AccessionMap
  | [], _, maps => maps
  | protein :: rest, i, maps => mapAccessionLoop rest (i + 1) (mapAccessionStep maps i protein)

/-- The function `RNPxlProteinReport::mapAccessionToTDProteins`: the two maps
after the call. -/
def RNPxlProteinReport.mapAccessionToTDProteins (prot_id : ProteinIdentification)
    (acc2protein_targets acc2protein_decoys : AccessionMap) :
    AccessionMap × AccessionMap :=
  mapAccessionLoop prot_id.hits 0 (acc2protein_targets, acc2protein_decoys)

/-! ## Examples -/

/-- A non-crosslink target hit. -/
def hitPeptide : PeptideHit :=
  { sequence := "PEPTIDEK", score := 1/100, rank := 1, charge := 2,
    accessions := ["P1"], isXL := 0, target_decoy := "target" }

/-- A crosslink target hit. -/
def hitXL : PeptideHit :=
  { sequence := "TESTK", score := 7/10, rank := 2, charge := 2,
    accessions := ["P2"], isXL := 1, target_decoy := "target" }

/-- A record with hits `[rank 1: non-crosslink, rank 2: crosslink]`. -/
def recordMixed : PeptideIdentification :=
  { identifier := "run", rt := 10, mz := 500, hits := [hitPeptide, hitXL] }

/-- A record whose only hit is the crosslink hit. -/
def recordXL : PeptideIdentification :=
  { identifier := "run", rt := 11, mz := 600, hits := [hitXL] }

/-- Collaborators for the examples: the estimator leaves the scores as they
are, numbers are not formatted, the report is empty. -/
def exampleCollaborators : Collaborators :=
  { fdrDefaults := ⟨false, false, false⟩
    fdrApply := fun _ ids => ids
    number := fun _ _ => ""
    annotateProteinModificationForTopHits := fun _ _ => [] }

/-! ## Statement vocabulary -/

/-- All hits of a list of records, in order. -/
def allHits (ids : List PeptideIdentification) : List PeptideHit :=
  (ids.map fun pi => pi.hits).flatten

/-- All protein records of a list of runs, in order. -/
def allProteins (prots : List ProteinIdentification) : List ProteinHit :=
  (prots.map fun prot => prot.hits).flatten

/-- A protein record is referenced by a hit of the given records. -/
def ReferencedBy (peptides : List PeptideIdentification) (p : ProteinHit) : Prop :=
  ∃ pi ∈ peptides, ∃ h ∈ pi.hits, p.accession ∈ h.accessions

/-- The spec's reading of one iteration: the threshold applied on its own to
a population, a filter when it is strictly between 0 and 1 and nothing
otherwise. -/
def thresholdAlone (population : List PeptideIdentification) (t : ℚ) :
    List PeptideIdentification :=
  if 0 < t ∧ t < 1 then IDFilter.filterHitsByScore population t else population

/-- The target map (`true`) or the decoy map (`false`) of a pair of maps. -/
def mapOfClass (maps : AccessionMap × AccessionMap) (target : Bool) : AccessionMap :=
  if target then maps.1 else maps.2

/-- The keys of an accession map. -/
def keys (m : AccessionMap) : List String :=
  m.map Prod.fst

/-- The record has the given accession and falls into the given class: the
target class (`true`) when line 114 sends it to the target map, the decoy
class (`false`) otherwise. -/
def ProteinHit.InClass (p : ProteinHit) (target : Bool) (acc : String) : Prop :=
  p.accession = acc ∧ p.hasTargetLabel = target

/-- The index `i` holds the last record, in list order, with the given
accession and class. -/
def LastInClass (hits : List ProteinHit) (target : Bool) (acc : String) (i : Nat) :
    Prop :=
  (∃ p, hits[i]? = some p ∧ p.InClass target acc) ∧
  ∀ j p, i < j → hits[j]? = some p → ¬ p.InClass target acc

/-- A protein identification with a target and a decoy record for `"P1"`. -/
def proteinsTargetDecoy : ProteinIdentification :=
  { identifier := "run"
    hits := [⟨"P1", "MKV", some "target"⟩, ⟨"P1", "VKM", some "decoy"⟩] }

/-- The copy of a record that the split appends to the crosslink population
(`crosslink = true`) or to the peptide population (`crosslink = false`), if
any: the record with its first hit alone, when it has a first hit and that hit
is a crosslink hit (`NuXL:isXL != 0`), respectively is none. -/
def firstHitCopy (crosslink : Bool) (pi : PeptideIdentification) :
    Option PeptideIdentification :=
  match pi.hits with
  | [] => none
  | h :: _ => if decide (h.isXL ≠ 0) = crosslink then some (pi.setHits [h]) else none

/-- A crosslink decoy hit. -/
def hitDecoyXL : PeptideHit :=
  { sequence := "KTSET", score := 3/10, rank := 1, charge := 2,
    accessions := ["DECOY_P2"], isXL := 1, target_decoy := "decoy" }

/-- A record whose only hit is the crosslink decoy hit. -/
def recordDecoyXL : PeptideIdentification :=
  { identifier := "run", rt := 12, mz := 700, hits := [hitDecoyXL] }

/-- A record without hits. -/
def recordEmpty : PeptideIdentification :=
  { identifier := "run", rt := 13, mz := 800, hits := [] }

/-- The share of decoy hits among the hits of a population. -/
def decoyShare (ids : List PeptideIdentification) : ℚ :=
  (((allHits ids).filter fun h => h.isDecoy).length : ℚ) / ((allHits ids).length : ℚ)

/-- Collaborators whose estimator gives every hit, as its score, the share of
decoy hits in the population the estimator is applied to. -/
def decoyShareCollaborators : Collaborators :=
  { fdrDefaults := ⟨false, false, false⟩
    fdrApply := fun _ ids =>
      ids.map fun pi => pi.setHits (pi.hits.map fun h => { h with score := decoyShare ids })
    number := fun _ _ => ""
    annotateProteinModificationForTopHits := fun _ _ => [] }

/-- Modelled from the spec: `String::number(d, n)` is not part of the sources
at hand. The spec says the threshold is "rendered with 4 decimal digits of
precision": the value in fixed notation, rounded to `n` decimals (a tie away
from zero), with a minus sign for a negative value. -/
def number (d : ℚ) (n : Nat) : String :=
  let scaled : Nat := (2 * d.num.natAbs * 10 ^ n + d.den) / (2 * d.den)
  let digits := toString (scaled % 10 ^ n)
  (if d < 0 then "-" else "") ++ toString (scaled / 10 ^ n) ++ "." ++
    String.mk (List.replicate (n - digits.length) '0') ++ digits

/-- Collaborators for the examples on output paths: as `exampleCollaborators`,
with numbers formatted by `number`. -/
def formattingCollaborators : Collaborators :=
  { exampleCollaborators with number := number }

/-- A protein identification whose records carry the labels `target+decoy`,
the empty string, no label, `decoy` and `target`. -/
def proteinsLabels : ProteinIdentification :=
  { identifier := "run"
    hits := [⟨"P1", "", some "target+decoy"⟩, ⟨"P2", "", some ""⟩, ⟨"P3", "", none⟩,
             ⟨"P4", "", some "decoy"⟩, ⟨"P5", "", some "target"⟩] }

/-! ## The population split -/

theorem foldl_splitHit_of_nonempty (hits : List PeptideHit)
    (acc : List PeptideHit × List PeptideHit)
    (h : (acc.1.isEmpty && acc.2.isEmpty) = false) :
    hits.foldl splitHit acc = acc := by
  induction hits with
  | nil => rfl
  | cons x rest ih =>
    have hx : splitHit acc x = acc := by
      unfold splitHit
      simp [h]
    simp [List.foldl_cons, hx, ih]

theorem splitHits_cons (h : PeptideHit) (rest : List PeptideHit) :
    splitHits (h :: rest) = if h.isXL = 0 then ([h], []) else ([], [h]) := by
  unfold splitHits
  rw [List.foldl_cons]
  by_cases hx : h.isXL = 0
  · have : splitHit ([], []) h = ([h], []) := by simp [splitHit, hx]
    rw [this, foldl_splitHit_of_nonempty _ _ (by simp)]
    simp [hx]
  · have : splitHit ([], []) h = ([], [h]) := by simp [splitHit, hx]
    rw [this, foldl_splitHit_of_nonempty _ _ (by simp)]
    simp [hx]

/-- C1 (amended): a record with at least one hit contributes its first hit,
and nothing else: a copy holding exactly that hit goes to the peptide
population when the hit has `NuXL:isXL == 0` and to the crosslink population
otherwise, and the other population is left as it was. -/
theorem splitRecord_first_hit
    (acc : List PeptideIdentification × List PeptideIdentification)
    (pi : PeptideIdentification) (h : PeptideHit) (rest : List PeptideHit)
    (hh : pi.hits = h :: rest) :
    splitRecord acc pi =
      if h.isXL = 0 then (acc.1 ++ [pi.setHits [h]], acc.2)
      else (acc.1, acc.2 ++ [pi.setHits [h]]) := by
  unfold splitRecord
  rw [hh, splitHits_cons]
  by_cases hx : h.isXL = 0 <;> simp [hx]

/-- C1 (amended), at the record `[rank 1: non-crosslink, rank 2: crosslink]`:
the peptide population receives the rank-1 hit, the crosslink population
receives nothing. -/
theorem splitRecord_first_hit_witness :
    recordMixed.hits = hitPeptide :: [hitXL] ∧
    splitRecord ([], []) recordMixed = ([recordMixed.setHits [hitPeptide]], []) :=
  ⟨rfl, (splitRecord_first_hit ([], []) recordMixed hitPeptide [hitXL] rfl).trans rfl⟩

/-- C1 (as stated) fails: the record `[rank 1: non-crosslink, rank 2:
crosslink]` has a first crosslink hit, the rank-2 hit, and the crosslink
population does not receive a copy holding it; it stays empty. -/
theorem split_drops_second_rank_crosslink :
    recordMixed.hits.find? (fun h => decide (h.isXL ≠ 0)) = some hitXL ∧
    recordMixed.setHits [hitXL] ∉ (splitPopulations [recordMixed] [] []).2 ∧
    splitPopulations [recordMixed] [] [] = ([recordMixed.setHits [hitPeptide]], []) := by
  refine ⟨rfl, ?_, rfl⟩
  have h : splitPopulations [recordMixed] [] [] = ([recordMixed.setHits [hitPeptide]], []) := rfl
  rw [h]
  simp

/-! ## Filters only remove hits -/

theorem allHits_cons (pi : PeptideIdentification) (ids : List PeptideIdentification) :
    allHits (pi :: ids) = pi.hits ++ allHits ids := by
  simp [allHits]

theorem allHits_filterHitsByScore_sublist (ids : List PeptideIdentification) (t : ℚ) :
    (allHits (IDFilter.filterHitsByScore ids t)).Sublist (allHits ids) := by
  induction ids with
  | nil => simp [IDFilter.filterHitsByScore, allHits]
  | cons pi rest ih =>
    have hstep : IDFilter.filterHitsByScore (pi :: rest) t =
        pi.setHits (pi.hits.filter fun h => decide (h.score ≤ t)) ::
          IDFilter.filterHitsByScore rest t := rfl
    rw [hstep, allHits_cons, allHits_cons]
    exact List.Sublist.append (List.filter_sublist _) ih

theorem allHits_thresholdAlone_sublist (ids : List PeptideIdentification) (t : ℚ) :
    (allHits (thresholdAlone ids t)).Sublist (allHits ids) := by
  unfold thresholdAlone
  split
  · exact allHits_filterHitsByScore_sublist ids t
  · exact List.Sublist.refl _

theorem not_isDecoy_of_mem_removeDecoyHits (ids : List PeptideIdentification)
    (h : PeptideHit) (hmem : h ∈ allHits (IDFilter.removeDecoyHits ids)) :
    h.isDecoy = false := by
  induction ids with
  | nil => simp [IDFilter.removeDecoyHits, allHits] at hmem
  | cons pi rest ih =>
    have hstep : IDFilter.removeDecoyHits (pi :: rest) =
        pi.setHits (pi.hits.filter fun h => !h.isDecoy) ::
          IDFilter.removeDecoyHits rest := rfl
    rw [hstep, allHits_cons, List.mem_append] at hmem
    rcases hmem with hm | hm
    · have := (List.mem_filter.mp hm).2
      simpa using this
    · exact ih hm

theorem filterHitsByScore_filterHitsByScore (ids : List PeptideIdentification)
    (s t : ℚ) (hts : t ≤ s) :
    IDFilter.filterHitsByScore (IDFilter.filterHitsByScore ids s) t =
      IDFilter.filterHitsByScore ids t := by
  unfold IDFilter.filterHitsByScore
  rw [List.map_map]
  apply List.map_congr_left
  intro pi _
  simp only [Function.comp, PeptideIdentification.setHits, List.filter_filter]
  congr 1
  apply List.filter_congr
  intro h _
  by_cases hh : h.score ≤ t
  · simp [hh, le_trans hh hts]
  · simp [hh]

theorem thresholdAlone_thresholdAlone (ids : List PeptideIdentification)
    (s t : ℚ) (ht : 0 < t) (hts : t ≤ s) :
    thresholdAlone (thresholdAlone ids s) t = thresholdAlone ids t := by
  by_cases hs : 0 < s ∧ s < 1
  · have ht1 : 0 < t ∧ t < 1 := ⟨ht, lt_of_le_of_lt hts hs.2⟩
    simp only [thresholdAlone, hs, ht1, and_self, if_true]
    exact filterHitsByScore_filterHitsByScore ids s t hts
  · simp [thresholdAlone, hs]

/-! ## The threshold loop -/

theorem xlIteration_peps (c : Collaborators) (protein_ids : List ProteinIdentification)
    (out_idxml : String) (xl_pi : List PeptideIdentification) (xlFDR : ℚ) :
    (xlIteration c protein_ids out_idxml xl_pi xlFDR).2.idXML.peps =
      thresholdAlone xl_pi xlFDR := rfl

theorem xlCascade_cons (c : Collaborators) (protein_ids : List ProteinIdentification)
    (out_idxml : String) (t : ℚ) (ts : List ℚ) (xl_pi : List PeptideIdentification) :
    (xlCascade c protein_ids out_idxml (t :: ts) xl_pi).2 =
      (xlIteration c protein_ids out_idxml xl_pi t).2 ::
        (xlCascade c protein_ids out_idxml ts (thresholdAlone xl_pi t)).2 := rfl

theorem xlCascade_map_xlFDR (c : Collaborators) (protein_ids : List ProteinIdentification)
    (out_idxml : String) (ts : List ℚ) (xl_pi : List PeptideIdentification) :
    (xlCascade c protein_ids out_idxml ts xl_pi).2.map (fun x => x.xlFDR) = ts := by
  induction ts generalizing xl_pi with
  | nil => rfl
  | cons t rest ih =>
    rw [xlCascade_cons, List.map_cons, ih]
    rfl

theorem xlCascade_peps_sublist (c : Collaborators) (protein_ids : List ProteinIdentification)
    (out_idxml : String) (ts : List ℚ) (xl_pi : List PeptideIdentification)
    (x : XLOutput) (hx : x ∈ (xlCascade c protein_ids out_idxml ts xl_pi).2) :
    (allHits x.idXML.peps).Sublist (allHits xl_pi) := by
  induction ts generalizing xl_pi with
  | nil => simp [xlCascade] at hx
  | cons t rest ih =>
    rw [xlCascade_cons, List.mem_cons] at hx
    rcases hx with hx | hx
    · rw [hx, xlIteration_peps]
      exact allHits_thresholdAlone_sublist xl_pi t
    · exact (ih _ hx).trans (allHits_thresholdAlone_sublist xl_pi t)

theorem xlCascade_pairwise_sublist (c : Collaborators)
    (protein_ids : List ProteinIdentification) (out_idxml : String) (ts : List ℚ)
    (xl_pi : List PeptideIdentification) :
    List.Pairwise
      (fun a b : XLOutput => (allHits b.idXML.peps).Sublist (allHits a.idXML.peps))
      (xlCascade c protein_ids out_idxml ts xl_pi).2 := by
  induction ts generalizing xl_pi with
  | nil => simp [xlCascade]
  | cons t rest ih =>
    rw [xlCascade_cons, List.pairwise_cons]
    refine ⟨?_, ih _⟩
    intro b hb
    rw [xlIteration_peps]
    exact xlCascade_peps_sublist c protein_ids out_idxml rest _ b hb

theorem xlCascade_peps_of_sorted (c : Collaborators)
    (protein_ids : List ProteinIdentification) (out_idxml : String) (ts : List ℚ)
    (hsorted : ts.Sorted (· ≥ ·)) (hpos : ∀ t ∈ ts, 0 < t)
    (population xl_pi : List PeptideIdentification)
    (hstart : ∀ t ∈ ts, thresholdAlone xl_pi t = thresholdAlone population t) :
    (xlCascade c protein_ids out_idxml ts xl_pi).2.map (fun x => x.idXML.peps) =
      ts.map (thresholdAlone population) := by
  induction ts generalizing xl_pi with
  | nil => rfl
  | cons t rest ih =>
    rw [xlCascade_cons, List.map_cons, List.map_cons, xlIteration_peps]
    have hhead : thresholdAlone xl_pi t = thresholdAlone population t :=
      hstart t (List.mem_cons_self _ _)
    rw [hhead]
    congr 1
    rw [List.sorted_cons] at hsorted
    apply ih hsorted.2 (fun u hu => hpos u (List.mem_cons_of_mem _ hu))
    intro u hu
    exact thresholdAlone_thresholdAlone population t u
      (hpos u (List.mem_cons_of_mem _ hu)) (hsorted.1 u hu)

/-! ## The thresholds of the loop -/

theorem mem_replace_zero_one (ts : List ℚ) (t : ℚ) (ht : t ∈ replace ts 0 1) :
    t ≠ 0 ∧ (t = 1 ∨ t ∈ ts) := by
  unfold replace at ht
  rw [List.mem_map] at ht
  obtain ⟨u, hu, rfl⟩ := ht
  by_cases h0 : u = 0
  · simp [h0]
  · simp [h0, hu]

theorem mem_normalizedThresholds (ts : List ℚ) (t : ℚ) :
    t ∈ normalizedThresholds ts ↔ t ∈ replace ts 0 1 :=
  (List.perm_insertionSort (· ≥ ·) (replace ts 0 1)).mem_iff

theorem sorted_normalizedThresholds (ts : List ℚ) :
    (normalizedThresholds ts).Sorted (· ≥ ·) :=
  List.sorted_insertionSort (· ≥ ·) (replace ts 0 1)

theorem RNPxlFDR.XLs_eq (self : RNPxlFDR) (c : Collaborators)
    (protein_ids : List ProteinIdentification)
    (peptide_ids pep_pi : List PeptideIdentification) (threshold : ℚ)
    (xl_pi : List PeptideIdentification) (ts : List ℚ) (out_idxml : String) :
    (self.PeptideAndXLQValueAtPSMLevel c protein_ids peptide_ids pep_pi threshold
        xl_pi ts out_idxml).XLs =
      (xlCascade c protein_ids out_idxml (normalizedThresholds ts)
        (self.xlDecoyStripped c peptide_ids pep_pi xl_pi)).2 := rfl

/-! ## Claims on the threshold loop -/

/-- C2 (amended): when no crosslink threshold is negative, the crosslink
population persisted at each iteration equals the result of applying that
iteration's threshold alone (a filter when it is strictly between 0 and 1, no
filter otherwise) to the single decoy-stripped, q-value-annotated crosslink
population. -/
theorem cascade_independent_of_nonnegative (self : RNPxlFDR) (c : Collaborators)
    (protein_ids : List ProteinIdentification)
    (peptide_ids pep_pi : List PeptideIdentification) (threshold : ℚ)
    (xl_pi : List PeptideIdentification) (ts : List ℚ) (out_idxml : String)
    (hts : ∀ t ∈ ts, 0 ≤ t) :
    (self.PeptideAndXLQValueAtPSMLevel c protein_ids peptide_ids pep_pi threshold
        xl_pi ts out_idxml).XLs.map (fun x => x.idXML.peps) =
      (normalizedThresholds ts).map
        (thresholdAlone (self.xlDecoyStripped c peptide_ids pep_pi xl_pi)) := by
  rw [RNPxlFDR.XLs_eq]
  apply xlCascade_peps_of_sorted _ _ _ _ (sorted_normalizedThresholds ts)
  · intro t ht
    obtain ⟨h0, h1⟩ := mem_replace_zero_one ts t ((mem_normalizedThresholds ts t).mp ht)
    rcases h1 with h1 | h1
    · rw [h1]; exact zero_lt_one
    · exact lt_of_le_of_ne (hts t h1) (Ne.symm h0)
  · intro t _
    rfl

/-- C2 (amended), at the thresholds `[0.01, 0.05, 0.0]`. -/
theorem cascade_independent_of_nonnegative_witness :
    (∀ t ∈ [(1 : ℚ) / 100, 5 / 100, 0], 0 ≤ t) ∧
    ((⟨1⟩ : RNPxlFDR).PeptideAndXLQValueAtPSMLevel exampleCollaborators []
        [recordMixed, recordXL] [] 0 [] [1 / 100, 5 / 100, 0] "out").XLs.map
        (fun x => x.idXML.peps) =
      (normalizedThresholds [1 / 100, 5 / 100, 0]).map
        (thresholdAlone ((⟨1⟩ : RNPxlFDR).xlDecoyStripped exampleCollaborators
          [recordMixed, recordXL] [] [])) :=
  ⟨by intro t ht; simp at ht; rcases ht with h | h | h <;> rw [h] <;> norm_num,
   cascade_independent_of_nonnegative ⟨1⟩ exampleCollaborators [] [recordMixed, recordXL]
     [] 0 [] [1 / 100, 5 / 100, 0] "out"
     (by intro t ht; simp at ht; rcases ht with h | h | h <;> rw [h] <;> norm_num)⟩

theorem normalizedThresholds_half_negative :
    normalizedThresholds [1 / 2, -1] = [1 / 2, -1] := by
  norm_num [normalizedThresholds, sortGreater, replace, List.insertionSort,
    List.orderedInsert]

theorem normalizedThresholds_example :
    normalizedThresholds [1 / 100, 5 / 100, 0] = [1, 5 / 100, 1 / 100] := by
  norm_num [normalizedThresholds, sortGreater, replace, List.insertionSort,
    List.orderedInsert]

/-- C2 (as stated) fails: with the thresholds `[0.5, -1]` and a crosslink hit
of q-value 0.7, the iteration for `-1` persists the population that the
iteration for `0.5` has emptied, whereas `-1` alone applies no filter to the
decoy-stripped population and keeps the hit. -/
theorem cascade_depends_on_earlier_filter :
    ((⟨1⟩ : RNPxlFDR).PeptideAndXLQValueAtPSMLevel exampleCollaborators []
        [recordXL] [] 0 [] [1 / 2, -1] "out").XLs.map (fun x => x.idXML.peps) ≠
      (normalizedThresholds [1 / 2, -1]).map
        (thresholdAlone ((⟨1⟩ : RNPxlFDR).xlDecoyStripped exampleCollaborators
          [recordXL] [] [])) ∧
    ((⟨1⟩ : RNPxlFDR).PeptideAndXLQValueAtPSMLevel exampleCollaborators []
        [recordXL] [] 0 [] [1 / 2, -1] "out").XLs.map
        (fun x => (x.xlFDR, x.idXML.peps)) =
      [(1 / 2, [recordXL.setHits []]), (-1, [recordXL.setHits []])] ∧
    thresholdAlone ((⟨1⟩ : RNPxlFDR).xlDecoyStripped exampleCollaborators
        [recordXL] [] []) (-1) = [recordXL] := by
  have hstripped :
      (⟨1⟩ : RNPxlFDR).xlDecoyStripped exampleCollaborators [recordXL] [] [] = [recordXL] := rfl
  rw [RNPxlFDR.XLs_eq, hstripped, normalizedThresholds_half_negative]
  refine ⟨?_, ?_, ?_⟩
  · norm_num [xlCascade, xlIteration, thresholdAlone, IDFilter.filterHitsByScore,
      recordXL, hitXL, PeptideIdentification.setHits]
  · norm_num [xlCascade, xlIteration, IDFilter.filterHitsByScore, recordXL, hitXL,
      PeptideIdentification.setHits]
  · norm_num [thresholdAlone]

/-- C3: the loop runs one iteration, writing one idXML and one TSV file, per
element of the threshold list, and the thresholds of the iterations are the
input list with every 0.0 replaced by 1.0 in descending order: a permutation
of the normalized list, sorted, of the same length and without 0.0. For the
input `[0.01, 0.05, 0.0]` they are `[1.0, 0.05, 0.01]`, three iterations. -/
theorem cascade_thresholds_normalized_descending (self : RNPxlFDR) (c : Collaborators)
    (protein_ids : List ProteinIdentification)
    (peptide_ids pep_pi : List PeptideIdentification) (threshold : ℚ)
    (xl_pi : List PeptideIdentification) (ts : List ℚ) (out_idxml : String) :
    ((self.PeptideAndXLQValueAtPSMLevel c protein_ids peptide_ids pep_pi threshold
        xl_pi ts out_idxml).XLs.map (fun x => x.xlFDR)).Perm
      (ts.map fun t => if t = 0 then 1 else t) ∧
    ((self.PeptideAndXLQValueAtPSMLevel c protein_ids peptide_ids pep_pi threshold
        xl_pi ts out_idxml).XLs.map (fun x => x.xlFDR)).Sorted (· ≥ ·) ∧
    (self.PeptideAndXLQValueAtPSMLevel c protein_ids peptide_ids pep_pi threshold
        xl_pi ts out_idxml).XLs.length = ts.length ∧
    (0 : ℚ) ∉ (self.PeptideAndXLQValueAtPSMLevel c protein_ids peptide_ids pep_pi
        threshold xl_pi ts out_idxml).XLs.map (fun x => x.xlFDR) ∧
    (self.PeptideAndXLQValueAtPSMLevel c protein_ids peptide_ids pep_pi threshold
        xl_pi [1 / 100, 5 / 100, 0] out_idxml).XLs.map (fun x => x.xlFDR) =
      [1, 5 / 100, 1 / 100] ∧
    (self.PeptideAndXLQValueAtPSMLevel c protein_ids peptide_ids pep_pi threshold
        xl_pi [1 / 100, 5 / 100, 0] out_idxml).XLs.length = 3 := by
  have hperm : (normalizedThresholds ts).Perm (ts.map fun t => if t = 0 then 1 else t) :=
    List.perm_insertionSort (· ≥ ·) (replace ts 0 1)
  have hlen : ∀ l : List ℚ,
      (self.PeptideAndXLQValueAtPSMLevel c protein_ids peptide_ids pep_pi threshold
        xl_pi l out_idxml).XLs.length = (normalizedThresholds l).length := by
    intro l
    have h := congrArg List.length (xlCascade_map_xlFDR c protein_ids out_idxml
      (normalizedThresholds l) (self.xlDecoyStripped c peptide_ids pep_pi xl_pi))
    rw [List.length_map] at h
    rw [RNPxlFDR.XLs_eq]
    exact h
  simp only [RNPxlFDR.XLs_eq, xlCascade_map_xlFDR]
  refine ⟨hperm, sorted_normalizedThresholds ts, ?_, ?_, normalizedThresholds_example, ?_⟩
  · have h := hlen ts
    rw [RNPxlFDR.XLs_eq] at h
    rw [h, hperm.length_eq, List.length_map]
  · intro h0
    exact (mem_replace_zero_one ts 0 ((mem_normalizedThresholds ts 0).mp h0)).1 rfl
  · have h := hlen [1 / 100, 5 / 100, 0]
    rw [RNPxlFDR.XLs_eq] at h
    rw [h, normalizedThresholds_example]
    rfl

/-- C4: the crosslink hits persisted at an iteration of the loop are among the
hits persisted at every earlier (looser) iteration, in the same order, so their
number does not increase along the loop; and the hits of every iteration are
among those of the decoy-stripped crosslink population. -/
theorem cascade_monotone (self : RNPxlFDR) (c : Collaborators)
    (protein_ids : List ProteinIdentification)
    (peptide_ids pep_pi : List PeptideIdentification) (threshold : ℚ)
    (xl_pi : List PeptideIdentification) (ts : List ℚ) (out_idxml : String) :
    List.Pairwise
      (fun earlier later : XLOutput =>
        (allHits later.idXML.peps).Sublist (allHits earlier.idXML.peps) ∧
        (allHits later.idXML.peps).length ≤ (allHits earlier.idXML.peps).length)
      (self.PeptideAndXLQValueAtPSMLevel c protein_ids peptide_ids pep_pi threshold
        xl_pi ts out_idxml).XLs ∧
    List.Forall
      (fun x : XLOutput =>
        (allHits x.idXML.peps).Sublist
          (allHits (self.xlDecoyStripped c peptide_ids pep_pi xl_pi)))
      (self.PeptideAndXLQValueAtPSMLevel c protein_ids peptide_ids pep_pi threshold
        xl_pi ts out_idxml).XLs := by
  rw [RNPxlFDR.XLs_eq]
  constructor
  · exact (xlCascade_pairwise_sublist c protein_ids out_idxml _ _).imp
      (fun h => ⟨h, h.length_le⟩)
  · rw [List.forall_iff_forall_mem]
    intro x hx
    exact xlCascade_peps_sublist c protein_ids out_idxml _ _ x hx

/-! ## What each iteration writes -/

theorem xlCascade_written (c : Collaborators) (protein_ids : List ProteinIdentification)
    (out_idxml : String) (ts : List ℚ) (xl_pi : List PeptideIdentification)
    (x : XLOutput) (hx : x ∈ (xlCascade c protein_ids out_idxml ts xl_pi).2) :
    x.idXML.prots = IDFilter.removeUnreferencedProteins protein_ids x.idXML.peps ∧
    x.tsv.lines = c.annotateProteinModificationForTopHits x.idXML.prots x.idXML.peps := by
  induction ts generalizing xl_pi with
  | nil => simp [xlCascade] at hx
  | cons t rest ih =>
    rw [xlCascade_cons, List.mem_cons] at hx
    rcases hx with hx | hx
    · rw [hx]
      exact ⟨rfl, rfl⟩
    · exact ih _ hx

theorem xlCascade_xlFDR_mem (c : Collaborators) (protein_ids : List ProteinIdentification)
    (out_idxml : String) (ts : List ℚ) (xl_pi : List PeptideIdentification)
    (x : XLOutput) (hx : x ∈ (xlCascade c protein_ids out_idxml ts xl_pi).2) :
    x.xlFDR ∈ ts := by
  have h := List.mem_map_of_mem (fun x : XLOutput => x.xlFDR) hx
  rwa [xlCascade_map_xlFDR] at h

theorem thresholdAlone_of_one_le (ids : List PeptideIdentification) (t : ℚ)
    (ht : 1 ≤ t) : thresholdAlone ids t = ids := by
  simp [thresholdAlone, not_lt.mpr ht]

theorem xlCascade_peps_of_one_le (c : Collaborators)
    (protein_ids : List ProteinIdentification) (out_idxml : String) (ts : List ℚ)
    (hsorted : ts.Sorted (· ≥ ·)) (xl_pi : List PeptideIdentification)
    (x : XLOutput) (hx : x ∈ (xlCascade c protein_ids out_idxml ts xl_pi).2)
    (h1 : 1 ≤ x.xlFDR) : x.idXML.peps = xl_pi := by
  induction ts generalizing xl_pi with
  | nil => simp [xlCascade] at hx
  | cons t rest ih =>
    rw [List.sorted_cons] at hsorted
    rw [xlCascade_cons, List.mem_cons] at hx
    rcases hx with hx | hx
    · rw [hx, xlIteration_peps]
      have ht : 1 ≤ t := by rw [hx] at h1; exact h1
      exact thresholdAlone_of_one_le xl_pi t ht
    · have hmem := xlCascade_xlFDR_mem c protein_ids out_idxml rest _ x hx
      have ht : 1 ≤ t := le_trans h1 (hsorted.1 _ hmem)
      rw [thresholdAlone_of_one_le xl_pi t ht] at hx
      exact ih hsorted.2 xl_pi hx

theorem mem_referencedAccessions (peptides : List PeptideIdentification) (a : String) :
    a ∈ referencedAccessions peptides ↔
      ∃ pi ∈ peptides, ∃ h ∈ pi.hits, a ∈ h.accessions := by
  simp only [referencedAccessions, List.mem_flatten, List.mem_map]
  constructor
  · rintro ⟨l, ⟨pi, hpi, rfl⟩, hl⟩
    rw [List.mem_flatten] at hl
    obtain ⟨l2, hl2, ha⟩ := hl
    rw [List.mem_map] at hl2
    obtain ⟨h, hh, rfl⟩ := hl2
    exact ⟨pi, hpi, h, hh, ha⟩
  · rintro ⟨pi, hpi, h, hh, ha⟩
    refine ⟨_, ⟨pi, hpi, rfl⟩, ?_⟩
    rw [List.mem_flatten]
    exact ⟨_, List.mem_map_of_mem _ hh, ha⟩

theorem mem_allProteins_removeUnreferencedProteins
    (proteins : List ProteinIdentification) (peptides : List PeptideIdentification)
    (p : ProteinHit) :
    p ∈ allProteins (IDFilter.removeUnreferencedProteins proteins peptides) ↔
      p ∈ allProteins proteins ∧ ReferencedBy peptides p := by
  simp only [allProteins, IDFilter.removeUnreferencedProteins, List.map_map,
    List.mem_flatten, List.mem_map, Function.comp, ReferencedBy]
  constructor
  · rintro ⟨l, ⟨prot, hprot, rfl⟩, hp⟩
    rw [List.mem_filter] at hp
    refine ⟨⟨_, ⟨prot, hprot, rfl⟩, hp.1⟩, ?_⟩
    exact (mem_referencedAccessions peptides p.accession).mp (of_decide_eq_true hp.2)
  · rintro ⟨⟨l, ⟨prot, hprot, rfl⟩, hp⟩, href⟩
    refine ⟨_, ⟨prot, hprot, rfl⟩, ?_⟩
    rw [List.mem_filter]
    exact ⟨hp, decide_eq_true ((mem_referencedAccessions peptides p.accession).mpr href)⟩

theorem RNPxlFDR.peptides_peps_eq (self : RNPxlFDR) (c : Collaborators)
    (protein_ids : List ProteinIdentification)
    (peptide_ids pep_pi : List PeptideIdentification) (threshold : ℚ)
    (xl_pi : List PeptideIdentification) (ts : List ℚ) (out_idxml : String) :
    (self.PeptideAndXLQValueAtPSMLevel c protein_ids peptide_ids pep_pi threshold
        xl_pi ts out_idxml).peptides.peps =
      thresholdAlone (self.pepDecoyStripped c peptide_ids pep_pi xl_pi) threshold := rfl

/-! ## Claims on what is persisted -/

/-- C5: whatever the estimator returns and whatever the thresholds are, no hit
labelled decoy is in the peptide population handed to `IdXMLFile::store`, nor
in the crosslink population that an iteration hands to `IdXMLFile::store` and
to the protein report. -/
theorem no_decoy_persisted (self : RNPxlFDR) (c : Collaborators)
    (protein_ids : List ProteinIdentification)
    (peptide_ids pep_pi : List PeptideIdentification) (threshold : ℚ)
    (xl_pi : List PeptideIdentification) (ts : List ℚ) (out_idxml : String) :
    (∀ h ∈ allHits (self.PeptideAndXLQValueAtPSMLevel c protein_ids peptide_ids pep_pi
        threshold xl_pi ts out_idxml).peptides.peps, h.isDecoy = false) ∧
    (∀ x ∈ (self.PeptideAndXLQValueAtPSMLevel c protein_ids peptide_ids pep_pi
        threshold xl_pi ts out_idxml).XLs,
      (∀ h ∈ allHits x.idXML.peps, h.isDecoy = false) ∧
      x.tsv.lines = c.annotateProteinModificationForTopHits x.idXML.prots x.idXML.peps) := by
  constructor
  · intro h hh
    rw [RNPxlFDR.peptides_peps_eq] at hh
    exact not_isDecoy_of_mem_removeDecoyHits _ h
      ((allHits_thresholdAlone_sublist _ _).subset hh)
  · intro x hx
    rw [RNPxlFDR.XLs_eq] at hx
    refine ⟨?_, (xlCascade_written c protein_ids out_idxml _ _ x hx).2⟩
    intro h hh
    exact not_isDecoy_of_mem_removeDecoyHits _ h
      ((xlCascade_peps_sublist c protein_ids out_idxml _ _ x hx).subset hh)

/-- C6: a crosslink threshold of 0.0 gives the same call as a threshold of 1.0
in its place; the loop then has an iteration for the threshold 1.0, and every
iteration for 1.0 persists the decoy-stripped crosslink population as it is,
with all its hits. -/
theorem zero_threshold_disables_filter (self : RNPxlFDR) (c : Collaborators)
    (protein_ids : List ProteinIdentification)
    (peptide_ids pep_pi : List PeptideIdentification) (threshold : ℚ)
    (xl_pi : List PeptideIdentification) (before after : List ℚ) (out_idxml : String) :
    self.PeptideAndXLQValueAtPSMLevel c protein_ids peptide_ids pep_pi threshold
        xl_pi (before ++ 0 :: after) out_idxml =
      self.PeptideAndXLQValueAtPSMLevel c protein_ids peptide_ids pep_pi threshold
        xl_pi (before ++ 1 :: after) out_idxml ∧
    (∃ x ∈ (self.PeptideAndXLQValueAtPSMLevel c protein_ids peptide_ids pep_pi
        threshold xl_pi (before ++ 0 :: after) out_idxml).XLs, x.xlFDR = 1) ∧
    (∀ x ∈ ((self.PeptideAndXLQValueAtPSMLevel c protein_ids peptide_ids pep_pi
        threshold xl_pi (before ++ 0 :: after) out_idxml).XLs.filter
          fun x => decide (x.xlFDR = 1)),
      x.idXML.peps = self.xlDecoyStripped c peptide_ids pep_pi xl_pi ∧
      (allHits x.idXML.peps).length =
        (allHits (self.xlDecoyStripped c peptide_ids pep_pi xl_pi)).length) := by
  have hrep : replace (before ++ 0 :: after) 0 1 = replace (before ++ 1 :: after) 0 1 := by
    simp [replace]
  have hnorm : normalizedThresholds (before ++ 0 :: after) =
      normalizedThresholds (before ++ 1 :: after) := by
    unfold normalizedThresholds
    rw [hrep]
  refine ⟨?_, ?_, ?_⟩
  · unfold RNPxlFDR.PeptideAndXLQValueAtPSMLevel
    rw [hnorm]
  · have hmem : (1 : ℚ) ∈ normalizedThresholds (before ++ 0 :: after) := by
      rw [mem_normalizedThresholds]
      simp [replace]
    rw [RNPxlFDR.XLs_eq]
    rw [← xlCascade_map_xlFDR c protein_ids out_idxml
      (normalizedThresholds (before ++ 0 :: after))
      (self.xlDecoyStripped c peptide_ids pep_pi xl_pi), List.mem_map] at hmem
    exact hmem
  · intro x hx
    rw [List.mem_filter, RNPxlFDR.XLs_eq] at hx
    have h1 : x.xlFDR = 1 := of_decide_eq_true hx.2
    have hp := xlCascade_peps_of_one_le c protein_ids out_idxml _
      (sorted_normalizedThresholds _) _ x hx.1 (le_of_eq h1.symm)
    exact ⟨hp, by rw [hp]⟩

/-- C7: the protein list persisted with the peptide output and with each
iteration of the loop is `removeUnreferencedProteins` of the complete input
protein list and the population persisted with it; a protein record is in it
if and only if it is in the input list and referenced by a hit of that
population. -/
theorem proteins_rederived_per_threshold (self : RNPxlFDR) (c : Collaborators)
    (protein_ids : List ProteinIdentification)
    (peptide_ids pep_pi : List PeptideIdentification) (threshold : ℚ)
    (xl_pi : List PeptideIdentification) (ts : List ℚ) (out_idxml : String) :
    ((self.PeptideAndXLQValueAtPSMLevel c protein_ids peptide_ids pep_pi threshold
        xl_pi ts out_idxml).peptides.prots =
      IDFilter.removeUnreferencedProteins protein_ids
        (self.PeptideAndXLQValueAtPSMLevel c protein_ids peptide_ids pep_pi threshold
          xl_pi ts out_idxml).peptides.peps ∧
     ∀ p, p ∈ allProteins (self.PeptideAndXLQValueAtPSMLevel c protein_ids peptide_ids
          pep_pi threshold xl_pi ts out_idxml).peptides.prots ↔
        p ∈ allProteins protein_ids ∧
        ReferencedBy (self.PeptideAndXLQValueAtPSMLevel c protein_ids peptide_ids
          pep_pi threshold xl_pi ts out_idxml).peptides.peps p) ∧
    (∀ x ∈ (self.PeptideAndXLQValueAtPSMLevel c protein_ids peptide_ids pep_pi
        threshold xl_pi ts out_idxml).XLs,
      x.idXML.prots = IDFilter.removeUnreferencedProteins protein_ids x.idXML.peps ∧
      ∀ p, p ∈ allProteins x.idXML.prots ↔
        p ∈ allProteins protein_ids ∧ ReferencedBy x.idXML.peps p) := by
  have hpep : (self.PeptideAndXLQValueAtPSMLevel c protein_ids peptide_ids pep_pi
        threshold xl_pi ts out_idxml).peptides.prots =
      IDFilter.removeUnreferencedProteins protein_ids
        (self.PeptideAndXLQValueAtPSMLevel c protein_ids peptide_ids pep_pi threshold
          xl_pi ts out_idxml).peptides.peps := rfl
  refine ⟨⟨hpep, ?_⟩, ?_⟩
  · intro p
    rw [hpep]
    exact mem_allProteins_removeUnreferencedProteins _ _ p
  · intro x hx
    rw [RNPxlFDR.XLs_eq] at hx
    have hw := (xlCascade_written c protein_ids out_idxml _ _ x hx).1
    refine ⟨hw, ?_⟩
    intro p
    rw [hw]
    exact mem_allProteins_removeUnreferencedProteins _ _ p

/-- C10: the peptide population that is persisted, and left in `pep_pi`, is
the decoy-stripped peptide population filtered by score when the threshold is
strictly between 0 and 1, and the decoy-stripped peptide population itself for
every other threshold. -/
theorem peptide_threshold_open_interval (self : RNPxlFDR) (c : Collaborators)
    (protein_ids : List ProteinIdentification)
    (peptide_ids pep_pi : List PeptideIdentification) (threshold : ℚ)
    (xl_pi : List PeptideIdentification) (ts : List ℚ) (out_idxml : String) :
    (self.PeptideAndXLQValueAtPSMLevel c protein_ids peptide_ids pep_pi threshold
        xl_pi ts out_idxml).peptides.peps =
      (if 0 < threshold ∧ threshold < 1 then
        IDFilter.filterHitsByScore (self.pepDecoyStripped c peptide_ids pep_pi xl_pi)
          threshold
      else self.pepDecoyStripped c peptide_ids pep_pi xl_pi) ∧
    (self.PeptideAndXLQValueAtPSMLevel c protein_ids peptide_ids pep_pi threshold
        xl_pi ts out_idxml).pep_pi =
      (self.PeptideAndXLQValueAtPSMLevel c protein_ids peptide_ids pep_pi threshold
        xl_pi ts out_idxml).peptides.peps :=
  ⟨rfl, rfl⟩

/-! ## The accession maps -/

theorem lookup_cons_eq (k : String) (v : Nat) (rest : AccessionMap) (a : String) :
    List.lookup a ((k, v) :: rest) = if a = k then some v else List.lookup a rest := by
  by_cases h : a = k
  · have hb : (a == k) = true := by simpa using h
    simp [List.lookup, hb, h]
  · have hb : (a == k) = false := by simpa using h
    simp [List.lookup, hb, h]

theorem lookup_mapAssign (m : AccessionMap) (k : String) (v : Nat) (a : String) :
    (mapAssign m k v).lookup a = if a = k then some v else m.lookup a := by
  induction m with
  | nil =>
    show List.lookup a [(k, v)] = _
    rw [lookup_cons_eq]
  | cons e rest ih =>
    obtain ⟨k0, v0⟩ := e
    by_cases hk : k0 = k
    · have hstep : mapAssign ((k0, v0) :: rest) k v = (k0, v) :: rest := by
        simp [mapAssign, hk]
      rw [hstep, lookup_cons_eq, lookup_cons_eq, hk]
      by_cases h : a = k <;> simp [h]
    · have hstep : mapAssign ((k0, v0) :: rest) k v = (k0, v0) :: mapAssign rest k v := by
        simp [mapAssign, hk]
      rw [hstep, lookup_cons_eq, lookup_cons_eq, ih]
      by_cases h : a = k0
      · simp [h, hk]
      · simp [h]

theorem keys_mapAssign (m : AccessionMap) (k : String) (v : Nat) :
    keys (mapAssign m k v) = if k ∈ keys m then keys m else keys m ++ [k] := by
  induction m with
  | nil => simp [mapAssign, keys]
  | cons e rest ih =>
    obtain ⟨k0, v0⟩ := e
    unfold keys at ih
    by_cases hk : k0 = k
    · simp [mapAssign, keys, hk]
    · have hk2 : ¬ k = k0 := fun h => hk h.symm
      by_cases hmem : k ∈ List.map Prod.fst rest
      · simp only [hmem, if_true] at ih
        simp [mapAssign, keys, hk, hk2, hmem, ih]
      · simp only [hmem, if_false] at ih
        simp [mapAssign, keys, hk, hk2, hmem, ih]

theorem mem_keys_mapAssign (m : AccessionMap) (k : String) (v : Nat) (a : String) :
    a ∈ keys (mapAssign m k v) ↔ a = k ∨ a ∈ keys m := by
  rw [keys_mapAssign]
  by_cases hmem : k ∈ keys m
  · simp only [hmem, if_true]
    constructor
    · exact fun h => Or.inr h
    · rintro (h | h)
      · rw [h]; exact hmem
      · exact h
  · simp only [hmem, if_false, List.mem_append, List.mem_singleton]
    exact or_comm

theorem nodup_keys_mapAssign (m : AccessionMap) (k : String) (v : Nat)
    (h : (keys m).Nodup) : (keys (mapAssign m k v)).Nodup := by
  rw [keys_mapAssign]
  by_cases hmem : k ∈ keys m
  · simpa [hmem] using h
  · simp only [hmem, if_false]
    rw [List.nodup_append]
    refine ⟨h, List.nodup_singleton k, ?_⟩
    intro a ha hb
    rw [List.mem_singleton] at hb
    exact hmem (hb ▸ ha)

theorem mapAccessionLoop_append (l₁ l₂ : List ProteinHit) (n : Nat)
    (maps : AccessionMap × AccessionMap) :
    mapAccessionLoop (l₁ ++ l₂) n maps =
      mapAccessionLoop l₂ (n + l₁.length) (mapAccessionLoop l₁ n maps) := by
  induction l₁ generalizing n maps with
  | nil => simp [mapAccessionLoop]
  | cons p rest ih =>
    show mapAccessionLoop (rest ++ l₂) (n + 1) (mapAccessionStep maps n p) =
      mapAccessionLoop l₂ (n + (rest.length + 1))
        (mapAccessionLoop rest (n + 1) (mapAccessionStep maps n p))
    rw [ih]
    congr 1
    omega

theorem lookup_mapAccessionStep (maps : AccessionMap × AccessionMap) (i : Nat)
    (p : ProteinHit) (target : Bool) (acc : String) :
    (mapOfClass (mapAccessionStep maps i p) target).lookup acc =
      if p.accession = acc ∧ p.hasTargetLabel = target then some i
      else (mapOfClass maps target).lookup acc := by
  cases target <;> cases hl : p.hasTargetLabel <;>
    simp [mapAccessionStep, mapOfClass, hl, lookup_mapAssign, eq_comm]

theorem lastInClass_concat (hits : List ProteinHit) (p : ProteinHit) (target : Bool)
    (acc : String) (i : Nat) :
    LastInClass (hits ++ [p]) target acc i ↔
      (p.InClass target acc ∧ i = hits.length) ∨
      (¬ p.InClass target acc ∧ LastInClass hits target acc i) := by
  constructor
  · rintro ⟨⟨q, hq, hqc⟩, hlast⟩
    have hi : i < hits.length + 1 := by
      have := (List.getElem?_eq_some_iff.mp hq).1
      simpa using this
    by_cases hp : p.InClass target acc
    · left
      refine ⟨hp, ?_⟩
      by_contra hne
      have hlt : i < hits.length := by omega
      exact hlast hits.length p hlt (List.getElem?_concat_length hits p) hp
    · right
      refine ⟨hp, ?_⟩
      have hlt : i < hits.length := by
        by_contra hge
        have hie : i = hits.length := by omega
        rw [hie, List.getElem?_concat_length] at hq
        cases hq
        exact hp hqc
      refine ⟨⟨q, ?_, hqc⟩, ?_⟩
      · rw [List.getElem?_append_left hlt] at hq
        exact hq
      · intro j r hij hr
        have hj : j < hits.length := (List.getElem?_eq_some_iff.mp hr).1
        apply hlast j r hij
        rw [List.getElem?_append_left hj]
        exact hr
  · rintro (⟨hp, hi⟩ | ⟨hp, ⟨q, hq, hqc⟩, hlast⟩)
    · rw [hi]
      refine ⟨⟨p, List.getElem?_concat_length hits p, hp⟩, ?_⟩
      intro j r hij hr
      have hj := (List.getElem?_eq_some_iff.mp hr).1
      simp only [List.length_append, List.length_singleton] at hj
      omega
    · have hlt : i < hits.length := (List.getElem?_eq_some_iff.mp hq).1
      refine ⟨⟨q, ?_, hqc⟩, ?_⟩
      · rw [List.getElem?_append_left hlt]
        exact hq
      · intro j r hij hr
        have hj := (List.getElem?_eq_some_iff.mp hr).1
        simp only [List.length_append, List.length_singleton] at hj
        by_cases hjl : j < hits.length
        · rw [List.getElem?_append_left hjl] at hr
          exact hlast j r hij hr
        · have hje : j = hits.length := by omega
          rw [hje, List.getElem?_concat_length] at hr
          cases hr
          exact hp

theorem lookup_mapAccessionLoop (hits : List ProteinHit)
    (maps : AccessionMap × AccessionMap) (target : Bool) (acc : String) (i : Nat) :
    (mapOfClass (mapAccessionLoop hits 0 maps) target).lookup acc = some i ↔
      LastInClass hits target acc i ∨
      ((∀ p ∈ hits, ¬ p.InClass target acc) ∧
        (mapOfClass maps target).lookup acc = some i) := by
  induction hits using List.reverseRecOn with
  | nil =>
    simp [mapAccessionLoop, LastInClass]
  | append_singleton l p ih =>
    rw [mapAccessionLoop_append]
    simp only [mapAccessionLoop, Nat.zero_add]
    rw [lookup_mapAccessionStep, lastInClass_concat]
    by_cases hp : p.InClass target acc
    · have hp2 : p.accession = acc ∧ p.hasTargetLabel = target := hp
      simp only [hp2, and_self, if_true, Option.some.injEq]
      constructor
      · intro h
        exact Or.inl (Or.inl ⟨hp, h.symm⟩)
      · rintro ((⟨_, h⟩ | ⟨h, _⟩) | ⟨h, _⟩)
        · exact h.symm
        · exact absurd hp h
        · exact absurd hp (h p (by simp))
    · have hp2 : ¬ (p.accession = acc ∧ p.hasTargetLabel = target) := hp
      simp only [hp2, if_false]
      rw [ih]
      constructor
      · rintro (h | ⟨h1, h2⟩)
        · exact Or.inl (Or.inr ⟨hp, h⟩)
        · refine Or.inr ⟨?_, h2⟩
          intro q hq
          rw [List.mem_append, List.mem_singleton] at hq
          rcases hq with hq | hq
          · exact h1 q hq
          · rw [hq]; exact hp
      · rintro ((⟨h, _⟩ | ⟨_, h⟩) | ⟨h1, h2⟩)
        · exact absurd h hp
        · exact Or.inl h
        · exact Or.inr ⟨fun q hq => h1 q (List.mem_append_left _ hq), h2⟩

theorem keys_mapAccessionLoop (hits : List ProteinHit) (n : Nat)
    (maps : AccessionMap × AccessionMap) (target : Bool) :
    ((keys (mapOfClass maps target)).Nodup →
      (keys (mapOfClass (mapAccessionLoop hits n maps) target)).Nodup) ∧
    ∀ acc, acc ∈ keys (mapOfClass (mapAccessionLoop hits n maps) target) ↔
      acc ∈ keys (mapOfClass maps target) ∨ ∃ p ∈ hits, p.InClass target acc := by
  induction hits generalizing n maps with
  | nil => simp [mapAccessionLoop]
  | cons p rest ih =>
    have hstep : mapAccessionLoop (p :: rest) n maps =
        mapAccessionLoop rest (n + 1) (mapAccessionStep maps n p) := rfl
    rw [hstep]
    obtain ⟨ihn, ihm⟩ := ih (n + 1) (mapAccessionStep maps n p)
    have hkeys : ∀ acc, acc ∈ keys (mapOfClass (mapAccessionStep maps n p) target) ↔
        acc ∈ keys (mapOfClass maps target) ∨ p.InClass target acc := by
      intro acc
      cases target <;> cases hl : p.hasTargetLabel <;>
        simp [mapAccessionStep, mapOfClass, hl, mem_keys_mapAssign, ProteinHit.InClass,
          or_comm, eq_comm]
    have hnodup : (keys (mapOfClass maps target)).Nodup →
        (keys (mapOfClass (mapAccessionStep maps n p) target)).Nodup := by
      intro h
      cases target <;> cases hl : p.hasTargetLabel <;>
        simp only [mapAccessionStep, mapOfClass, hl, if_true, if_false,
          Bool.false_eq_true] at h ⊢ <;>
        first
          | exact h
          | exact nodup_keys_mapAssign _ _ _ h
    refine ⟨fun h => ihn (hnodup h), ?_⟩
    intro acc
    rw [ihm, hkeys]
    constructor
    · rintro ((h | h) | ⟨q, hq, h⟩)
      · exact Or.inl h
      · exact Or.inr ⟨p, List.mem_cons_self _ _, h⟩
      · exact Or.inr ⟨q, List.mem_cons_of_mem _ hq, h⟩
    · rintro (h | ⟨q, hq, h⟩)
      · exact Or.inl (Or.inl h)
      · rw [List.mem_cons] at hq
        rcases hq with hq | hq
        · rw [hq] at h
          exact Or.inl (Or.inr h)
        · exact Or.inr ⟨q, hq, h⟩

theorem length_eq_dedup_of_keys (m : AccessionMap) (hits : List ProteinHit)
    (target : Bool) (hnodup : (keys m).Nodup)
    (hmem : ∀ acc, acc ∈ keys m ↔ ∃ p ∈ hits, p.InClass target acc) :
    m.length =
      ((hits.filter fun p => p.hasTargetLabel == target).map
        fun p => p.accession).dedup.length := by
  have hperm : (keys m).Perm
      ((hits.filter fun p => p.hasTargetLabel == target).map
        fun p => p.accession).dedup := by
    rw [List.perm_ext_iff_of_nodup hnodup (List.nodup_dedup _)]
    intro acc
    rw [hmem, List.mem_dedup, List.mem_map]
    constructor
    · rintro ⟨p, hp, hacc, hcls⟩
      exact ⟨p, List.mem_filter.mpr ⟨hp, by simpa using hcls⟩, hacc⟩
    · rintro ⟨p, hp, hacc⟩
      rw [List.mem_filter] at hp
      exact ⟨p, hp.1, hacc, by simpa using hp.2⟩
  have h := hperm.length_eq
  simpa [keys] using h

/-! ## Claims on the accession maps -/

/-- C8: when a protein identification holds a record labelled `target` at
index `i` and a record labelled `decoy` at index `j`, both with accession `A`,
and no further record with that accession, then after
`mapAccessionToTDProteins` on empty maps the target map sends `A` to the
target record and the decoy map sends `A` to the decoy record. -/
theorem target_and_decoy_kept_apart (prot_id : ProteinIdentification) (A : String)
    (i j : Nat) (t d : ProteinHit)
    (hi : prot_id.hits[i]? = some t) (hj : prot_id.hits[j]? = some d)
    (hta : t.accession = A) (hda : d.accession = A)
    (htl : t.target_decoy = some "target") (hdl : d.target_decoy = some "decoy")
    (hother : ∀ k p, prot_id.hits[k]? = some p → p.accession = A → k = i ∨ k = j) :
    (RNPxlProteinReport.mapAccessionToTDProteins prot_id [] []).1.lookup A = some i ∧
    (RNPxlProteinReport.mapAccessionToTDProteins prot_id [] []).2.lookup A = some j ∧
    i ≠ j := by
  have htc : t.hasTargetLabel = true := by
    unfold ProteinHit.hasTargetLabel ProteinHit.targetDecoyString
    rw [htl]
    rfl
  have hdc : d.hasTargetLabel = false := by
    unfold ProteinHit.hasTargetLabel ProteinHit.targetDecoyString
    rw [hdl]
    rfl
  have hT := (lookup_mapAccessionLoop prot_id.hits ([], []) true A i).mpr
  have hD := (lookup_mapAccessionLoop prot_id.hits ([], []) false A j).mpr
  refine ⟨hT (Or.inl ⟨⟨t, hi, hta, htc⟩, ?_⟩), hD (Or.inl ⟨⟨d, hj, hda, hdc⟩, ?_⟩), ?_⟩
  · intro k p hik hk hp
    rcases hother k p hk hp.1 with h | h
    · omega
    · rw [h, hj] at hk
      cases hk
      have hcls : d.hasTargetLabel = true := hp.2
      rw [hdc] at hcls
      exact Bool.false_ne_true hcls
  · intro k p hjk hk hp
    rcases hother k p hk hp.1 with h | h
    · rw [h, hi] at hk
      cases hk
      have hcls : t.hasTargetLabel = false := hp.2
      rw [htc] at hcls
      exact Bool.false_ne_true hcls.symm
    · omega
  · intro hij
    rw [hij, hj] at hi
    cases hi
    rw [htc] at hdc
    exact Bool.false_ne_true hdc.symm

/-- C8, at a target and a decoy record that share the accession `"P1"`. -/
theorem target_and_decoy_kept_apart_witness :
    (RNPxlProteinReport.mapAccessionToTDProteins proteinsTargetDecoy [] []).1.lookup "P1"
      = some 0 ∧
    (RNPxlProteinReport.mapAccessionToTDProteins proteinsTargetDecoy [] []).2.lookup "P1"
      = some 1 ∧
    0 ≠ 1 :=
  target_and_decoy_kept_apart proteinsTargetDecoy "P1" 0 1
    ⟨"P1", "MKV", some "target"⟩ ⟨"P1", "VKM", some "decoy"⟩ rfl rfl rfl rfl rfl rfl
    (by
      intro k p hk _
      have hlt : k < 2 := (List.getElem?_eq_some_iff.mp hk).1
      omega)

/-- C9: after `mapAccessionToTDProteins` on empty maps, the target map sends an
accession to an index exactly when that index holds the last record, in list
order, with that accession in the target class, and likewise the decoy map for
the decoy class; the keys of each map are pairwise distinct and are the
accessions of the records of its class, so each map has one entry per distinct
accession of its class. -/
theorem last_write_wins (prot_id : ProteinIdentification) :
    (∀ acc i,
      (RNPxlProteinReport.mapAccessionToTDProteins prot_id [] []).1.lookup acc = some i ↔
        LastInClass prot_id.hits true acc i) ∧
    (∀ acc i,
      (RNPxlProteinReport.mapAccessionToTDProteins prot_id [] []).2.lookup acc = some i ↔
        LastInClass prot_id.hits false acc i) ∧
    (keys (RNPxlProteinReport.mapAccessionToTDProteins prot_id [] []).1).Nodup ∧
    (keys (RNPxlProteinReport.mapAccessionToTDProteins prot_id [] []).2).Nodup ∧
    (∀ acc, acc ∈ keys (RNPxlProteinReport.mapAccessionToTDProteins prot_id [] []).1 ↔
      ∃ p ∈ prot_id.hits, p.InClass true acc) ∧
    (∀ acc, acc ∈ keys (RNPxlProteinReport.mapAccessionToTDProteins prot_id [] []).2 ↔
      ∃ p ∈ prot_id.hits, p.InClass false acc) ∧
    (RNPxlProteinReport.mapAccessionToTDProteins prot_id [] []).1.length =
      ((prot_id.hits.filter fun p => p.hasTargetLabel == true).map
        fun p => p.accession).dedup.length ∧
    (RNPxlProteinReport.mapAccessionToTDProteins prot_id [] []).2.length =
      ((prot_id.hits.filter fun p => p.hasTargetLabel == false).map
        fun p => p.accession).dedup.length := by
  have hlookup : ∀ (target : Bool) acc i,
      (mapOfClass (mapAccessionLoop prot_id.hits 0 ([], [])) target).lookup acc = some i ↔
        LastInClass prot_id.hits target acc i := by
    intro target acc i
    rw [lookup_mapAccessionLoop]
    cases target <;> simp [mapOfClass]
  have hkeys : ∀ (target : Bool),
      (keys (mapOfClass (mapAccessionLoop prot_id.hits 0 ([], [])) target)).Nodup ∧
      ∀ acc, acc ∈ keys (mapOfClass (mapAccessionLoop prot_id.hits 0 ([], [])) target) ↔
        ∃ p ∈ prot_id.hits, p.InClass target acc := by
    intro target
    obtain ⟨hn, hm⟩ := keys_mapAccessionLoop prot_id.hits 0 ([], []) target
    refine ⟨hn (by cases target <;> simp [mapOfClass, keys]), ?_⟩
    intro acc
    rw [hm]
    cases target <;> simp [mapOfClass, keys]
  have hT := hkeys true
  have hD := hkeys false
  exact ⟨hlookup true, hlookup false, hT.1, hD.1, hT.2, hD.2,
    length_eq_dedup_of_keys _ prot_id.hits true hT.1 hT.2,
    length_eq_dedup_of_keys _ prot_id.hits false hD.1 hD.2⟩

/-! ## The split as a whole -/

theorem splitRecord_eq_firstHitCopy
    (acc : List PeptideIdentification × List PeptideIdentification)
    (pi : PeptideIdentification) :
    splitRecord acc pi =
      (acc.1 ++ (firstHitCopy false pi).toList, acc.2 ++ (firstHitCopy true pi).toList) := by
  unfold splitRecord firstHitCopy
  cases hh : pi.hits with
  | nil => simp [splitHits]
  | cons h rest =>
    rw [splitHits_cons]
    by_cases hx : h.isXL = 0 <;> simp [hx]

theorem splitPopulations_eq_filterMap (peptide_ids pep_pi xl_pi : List PeptideIdentification) :
    splitPopulations peptide_ids pep_pi xl_pi =
      (pep_pi ++ peptide_ids.filterMap (firstHitCopy false),
       xl_pi ++ peptide_ids.filterMap (firstHitCopy true)) := by
  unfold splitPopulations
  induction peptide_ids generalizing pep_pi xl_pi with
  | nil => simp
  | cons pi rest ih =>
    rw [List.foldl_cons, splitRecord_eq_firstHitCopy, ih]
    cases h1 : firstHitCopy false pi <;> cases h2 : firstHitCopy true pi <;>
      simp [List.filterMap_cons, h1, h2]

theorem firstHitCopy_exclusive (pi : PeptideIdentification) :
    ((firstHitCopy false pi).isSome && (firstHitCopy true pi).isSome) = false ∧
    ((firstHitCopy false pi).isSome || (firstHitCopy true pi).isSome) = !pi.hits.isEmpty := by
  unfold firstHitCopy
  cases hh : pi.hits with
  | nil => simp
  | cons h rest =>
    by_cases hx : h.isXL = 0 <;> simp [hx]

/-- C13: the split appends, in the order of the source records, the copies
given by `firstHitCopy`: a record with a first hit goes, with that hit alone,
to the crosslink population when the hit has `NuXL:isXL != 0` and to the
peptide population otherwise; no record yields a copy for both populations, a
record yields a copy for one of them exactly when it has a hit, and a record
without hits yields none. -/
theorem split_by_first_hit_only (peptide_ids pep_pi xl_pi : List PeptideIdentification) :
    splitPopulations peptide_ids pep_pi xl_pi =
      (pep_pi ++ peptide_ids.filterMap (firstHitCopy false),
       xl_pi ++ peptide_ids.filterMap (firstHitCopy true)) ∧
    (∀ pi : PeptideIdentification,
      ((firstHitCopy false pi).isSome && (firstHitCopy true pi).isSome) = false ∧
      ((firstHitCopy false pi).isSome || (firstHitCopy true pi).isSome) =
        !pi.hits.isEmpty) ∧
    (∀ (pi : PeptideIdentification) (h : PeptideHit) (rest : List PeptideHit),
      pi.hits = h :: rest →
        firstHitCopy true pi = (if h.isXL ≠ 0 then some (pi.setHits [h]) else none) ∧
        firstHitCopy false pi = (if h.isXL ≠ 0 then none else some (pi.setHits [h]))) ∧
    (∀ pi : PeptideIdentification, pi.hits = [] →
      firstHitCopy true pi = none ∧ firstHitCopy false pi = none) ∧
    splitPopulations [recordMixed, recordEmpty, recordDecoyXL, recordXL] [] [] =
      ([recordMixed.setHits [hitPeptide]], [recordDecoyXL, recordXL]) := by
  refine ⟨splitPopulations_eq_filterMap peptide_ids pep_pi xl_pi, firstHitCopy_exclusive,
    ?_, ?_, rfl⟩
  · intro pi h rest hh
    unfold firstHitCopy
    rw [hh]
    by_cases hx : h.isXL = 0 <;> simp [hx]
  · intro pi hh
    unfold firstHitCopy
    rw [hh]
    exact ⟨rfl, rfl⟩

/-! ## The order of estimator, decoy removal and score filter -/

theorem decoyShare_example : decoyShare [recordDecoyXL, recordXL] = 1 / 2 := by
  have hd : ((allHits [recordDecoyXL, recordXL]).filter fun h => h.isDecoy).length = 1 := rfl
  have ha : (allHits [recordDecoyXL, recordXL]).length = 2 := rfl
  unfold decoyShare
  rw [hd, ha]
  norm_num

theorem fdrParam_decoys (self : RNPxlFDR) (c : Collaborators) :
    (self.fdrParam c).add_decoy_peptides = true ∧
    (self.fdrParam c).add_decoy_proteins = true := by
  unfold RNPxlFDR.fdrParam
  by_cases h : self.report_top_hits_ ≥ 2 <;> simp [h]

/-- C12: the estimator is applied to the two populations as the split leaves
them, decoys included, with the decoy parameters switched on; decoy removal
runs on the estimator's result and the score filters on what decoy removal
leaves. With the estimator that scores every hit by the share of decoys in
its input, a population of one decoy and one target crosslink hit persists
the target hit with score 1/2: the decoy was in the estimator's input and is
not in the output. -/
theorem decoys_removed_after_estimator (self : RNPxlFDR) (c : Collaborators)
    (protein_ids : List ProteinIdentification)
    (peptide_ids pep_pi : List PeptideIdentification) (threshold : ℚ)
    (xl_pi : List PeptideIdentification) (ts : List ℚ) (out_idxml : String) :
    (self.PeptideAndXLQValueAtPSMLevel c protein_ids peptide_ids pep_pi threshold
        xl_pi ts out_idxml).peptides.peps =
      thresholdAlone
        (IDFilter.removeDecoyHits
          (c.fdrApply (self.fdrParam c)
            (pep_pi ++ peptide_ids.filterMap (firstHitCopy false))))
        threshold ∧
    (self.PeptideAndXLQValueAtPSMLevel c protein_ids peptide_ids pep_pi threshold
        xl_pi ts out_idxml).XLs =
      (xlCascade c protein_ids out_idxml (normalizedThresholds ts)
        (IDFilter.removeDecoyHits
          (c.fdrApply (self.fdrParam c)
            (xl_pi ++ peptide_ids.filterMap (firstHitCopy true))))).2 ∧
    ((self.fdrParam c).add_decoy_peptides = true ∧
      (self.fdrParam c).add_decoy_proteins = true) ∧
    (hitDecoyXL.isDecoy = true ∧
      [recordDecoyXL, recordXL].filterMap (firstHitCopy true) = [recordDecoyXL, recordXL] ∧
      ((⟨1⟩ : RNPxlFDR).PeptideAndXLQValueAtPSMLevel decoyShareCollaborators []
          [recordDecoyXL, recordXL] [] 0 [] [1] "out").XLs.map (fun x => x.idXML.peps) =
        [[recordDecoyXL.setHits [],
          recordXL.setHits [{ hitXL with score := 1 / 2 }]]]) := by
  have hsplit := splitPopulations_eq_filterMap peptide_ids pep_pi xl_pi
  refine ⟨?_, ?_, fdrParam_decoys self c, rfl, rfl, ?_⟩
  · rw [RNPxlFDR.peptides_peps_eq]
    unfold RNPxlFDR.pepDecoyStripped
    rw [hsplit]
  · rw [RNPxlFDR.XLs_eq]
    unfold RNPxlFDR.xlDecoyStripped
    rw [hsplit]
  · have hnorm : normalizedThresholds [1] = [1] := by
      norm_num [normalizedThresholds, sortGreater, replace, List.insertionSort,
        List.orderedInsert]
    have hstripped : (⟨1⟩ : RNPxlFDR).xlDecoyStripped decoyShareCollaborators
        [recordDecoyXL, recordXL] [] [] =
        [recordDecoyXL.setHits [], recordXL.setHits [{ hitXL with score := 1 / 2 }]] := by
      have hs : (splitPopulations [recordDecoyXL, recordXL] [] []).2 =
          [recordDecoyXL, recordXL] := rfl
      unfold RNPxlFDR.xlDecoyStripped
      rw [hs]
      simp only [decoyShareCollaborators, decoyShare_example]
      simp [IDFilter.removeDecoyHits, recordDecoyXL, recordXL, hitDecoyXL, hitXL,
        PeptideIdentification.setHits, PeptideHit.isDecoy]
    rw [RNPxlFDR.XLs_eq, hstripped, hnorm]
    norm_num [xlCascade, xlIteration]

/-! ## The in-place loop on thresholds between 0 and 1 -/

theorem mem_allHits (ids : List PeptideIdentification) (h : PeptideHit) :
    h ∈ allHits ids ↔ ∃ pi ∈ ids, h ∈ pi.hits := by
  simp only [allHits, List.mem_flatten, List.mem_map]
  constructor
  · rintro ⟨l, ⟨pi, hpi, rfl⟩, hl⟩
    exact ⟨pi, hpi, hl⟩
  · rintro ⟨pi, hpi, hl⟩
    exact ⟨_, ⟨pi, hpi, rfl⟩, hl⟩

theorem mem_allHits_filterHitsByScore (ids : List PeptideIdentification) (t : ℚ)
    (h : PeptideHit) :
    h ∈ allHits (IDFilter.filterHitsByScore ids t) ↔ h ∈ allHits ids ∧ h.score ≤ t := by
  rw [mem_allHits, mem_allHits]
  unfold IDFilter.filterHitsByScore
  constructor
  · rintro ⟨pi, hpi, hh⟩
    rw [List.mem_map] at hpi
    obtain ⟨pi0, hpi0, rfl⟩ := hpi
    have hf := List.mem_filter.mp hh
    exact ⟨⟨pi0, hpi0, hf.1⟩, of_decide_eq_true hf.2⟩
  · rintro ⟨⟨pi, hpi, hh⟩, hle⟩
    refine ⟨_, List.mem_map_of_mem _ hpi, ?_⟩
    exact List.mem_filter.mpr ⟨hh, decide_eq_true hle⟩

theorem filterHitsByScore_of_all_le (ids : List PeptideIdentification) (t : ℚ)
    (hall : ∀ h ∈ allHits ids, h.score ≤ t) :
    IDFilter.filterHitsByScore ids t = ids := by
  unfold IDFilter.filterHitsByScore
  conv_rhs => rw [← List.map_id ids]
  apply List.map_congr_left
  intro pi hpi
  have hf : (pi.hits.filter fun h => decide (h.score ≤ t)) = pi.hits := by
    rw [List.filter_eq_self]
    intro h hh
    exact decide_eq_true (hall h ((mem_allHits ids h).mpr ⟨pi, hpi, hh⟩))
  rw [hf]
  rfl

theorem cascade_peps_of_nonnegative (self : RNPxlFDR) (c : Collaborators)
    (protein_ids : List ProteinIdentification)
    (peptide_ids pep_pi : List PeptideIdentification) (threshold : ℚ)
    (xl_pi : List PeptideIdentification) (ts : List ℚ) (out_idxml : String)
    (hts : ∀ t ∈ ts, 0 ≤ t) :
    (self.PeptideAndXLQValueAtPSMLevel c protein_ids peptide_ids pep_pi threshold
        xl_pi ts out_idxml).XLs.map (fun x => x.idXML.peps) =
      (normalizedThresholds ts).map
        (thresholdAlone (self.xlDecoyStripped c peptide_ids pep_pi xl_pi)) ∧
    ∀ t ∈ normalizedThresholds ts, 0 < t := by
  have hpos : ∀ t ∈ normalizedThresholds ts, 0 < t := by
    intro t ht
    obtain ⟨h0, h1⟩ := mem_replace_zero_one ts t ((mem_normalizedThresholds ts t).mp ht)
    rcases h1 with h1 | h1
    · rw [h1]; exact zero_lt_one
    · exact lt_of_le_of_ne (hts t h1) (Ne.symm h0)
  refine ⟨?_, hpos⟩
  rw [RNPxlFDR.XLs_eq]
  exact xlCascade_peps_of_sorted _ _ _ _ (sorted_normalizedThresholds ts) hpos _ _
    (fun _ _ => rfl)

theorem normalizedThresholds_quarter_negative :
    normalizedThresholds [1 / 4, -(1 / 2)] = [1 / 4, -(1 / 2)] := by
  norm_num [normalizedThresholds, sortGreater, replace, List.insertionSort,
    List.orderedInsert]

theorem cascade_quarter_negative_example :
    ((⟨1⟩ : RNPxlFDR).PeptideAndXLQValueAtPSMLevel exampleCollaborators []
        [recordXL] [] 0 [] [1 / 4, -(1 / 2)] "out").XLs.map (fun x => x.idXML.peps) =
      [[recordXL.setHits []], [recordXL.setHits []]] ∧
    (normalizedThresholds [1 / 4, -(1 / 2)]).map
        (thresholdAlone ((⟨1⟩ : RNPxlFDR).xlDecoyStripped exampleCollaborators
          [recordXL] [] [])) =
      [[recordXL.setHits []], [recordXL]] := by
  have hstripped :
      (⟨1⟩ : RNPxlFDR).xlDecoyStripped exampleCollaborators [recordXL] [] [] = [recordXL] := rfl
  rw [RNPxlFDR.XLs_eq, hstripped, normalizedThresholds_quarter_negative]
  constructor
  · norm_num [xlCascade, xlIteration, IDFilter.filterHitsByScore, recordXL, hitXL,
      PeptideIdentification.setHits]
  · norm_num [thresholdAlone, IDFilter.filterHitsByScore, recordXL, hitXL,
      PeptideIdentification.setHits]

/-- C14: the score filter keeps exactly the hits whose q-value is at most the
threshold, and when every crosslink threshold lies in the closed interval from
0 to 1 the in-place loop persists at each iteration the decoy-stripped
population with that iteration's threshold applied alone; when, in addition,
no q-value of that population exceeds 1, this is the decoy-stripped population
filtered by that threshold. For the thresholds `[0.25, -0.5]` the two differ:
the iteration for `-0.5` skips the filter and persists the population that
the iteration for `0.25` has emptied. -/
theorem inplace_cascade_independent_on_unit_interval (self : RNPxlFDR) (c : Collaborators)
    (protein_ids : List ProteinIdentification)
    (peptide_ids pep_pi : List PeptideIdentification) (threshold : ℚ)
    (xl_pi : List PeptideIdentification) (ts : List ℚ) (out_idxml : String)
    (hts : ∀ t ∈ ts, 0 ≤ t ∧ t ≤ 1) :
    (∀ (ids : List PeptideIdentification) (t : ℚ) (h : PeptideHit),
      h ∈ allHits (IDFilter.filterHitsByScore ids t) ↔ h ∈ allHits ids ∧ h.score ≤ t) ∧
    (self.PeptideAndXLQValueAtPSMLevel c protein_ids peptide_ids pep_pi threshold
        xl_pi ts out_idxml).XLs.map (fun x => x.idXML.peps) =
      (normalizedThresholds ts).map
        (thresholdAlone (self.xlDecoyStripped c peptide_ids pep_pi xl_pi)) ∧
    ((∀ h ∈ allHits (self.xlDecoyStripped c peptide_ids pep_pi xl_pi), h.score ≤ 1) →
      (self.PeptideAndXLQValueAtPSMLevel c protein_ids peptide_ids pep_pi threshold
          xl_pi ts out_idxml).XLs.map (fun x => x.idXML.peps) =
        (normalizedThresholds ts).map
          (IDFilter.filterHitsByScore (self.xlDecoyStripped c peptide_ids pep_pi xl_pi))) ∧
    (¬ (∀ t ∈ [(1 : ℚ) / 4, -(1 / 2)], 0 ≤ t ∧ t ≤ 1) ∧
      ((⟨1⟩ : RNPxlFDR).PeptideAndXLQValueAtPSMLevel exampleCollaborators []
          [recordXL] [] 0 [] [1 / 4, -(1 / 2)] "out").XLs.map (fun x => x.idXML.peps) ≠
        (normalizedThresholds [1 / 4, -(1 / 2)]).map
          (thresholdAlone ((⟨1⟩ : RNPxlFDR).xlDecoyStripped exampleCollaborators
            [recordXL] [] []))) := by
  obtain ⟨heq, hpos⟩ := cascade_peps_of_nonnegative self c protein_ids peptide_ids pep_pi
    threshold xl_pi ts out_idxml (fun t ht => (hts t ht).1)
  refine ⟨mem_allHits_filterHitsByScore, heq, ?_, ?_, ?_⟩
  · intro hq
    rw [heq]
    apply List.map_congr_left
    intro t ht
    have hle : t ≤ 1 := by
      obtain ⟨_, h1⟩ := mem_replace_zero_one ts t ((mem_normalizedThresholds ts t).mp ht)
      rcases h1 with h1 | h1
      · exact le_of_eq h1
      · exact (hts t h1).2
    rcases lt_or_eq_of_le hle with hlt | h1
    · simp [thresholdAlone, hpos t ht, hlt]
    · rw [h1, thresholdAlone_of_one_le _ 1 le_rfl, filterHitsByScore_of_all_le _ 1 hq]
  · intro hall
    have := (hall (-(1 / 2)) (by simp)).1
    norm_num at this
  · obtain ⟨h1, h2⟩ := cascade_quarter_negative_example
    rw [h1, h2]
    simp [recordXL, PeptideIdentification.setHits]

/-- C14, at the thresholds `[0.01, 0.05, 0.0, 1.0]`. -/
theorem inplace_cascade_independent_on_unit_interval_witness :
    (∀ t ∈ [(1 : ℚ) / 100, 5 / 100, 0, 1], 0 ≤ t ∧ t ≤ 1) ∧
    ((⟨1⟩ : RNPxlFDR).PeptideAndXLQValueAtPSMLevel exampleCollaborators []
        [recordMixed, recordDecoyXL, recordXL] [] 0 [] [1 / 100, 5 / 100, 0, 1]
        "out").XLs.map (fun x => x.idXML.peps) =
      (normalizedThresholds [1 / 100, 5 / 100, 0, 1]).map
        (thresholdAlone ((⟨1⟩ : RNPxlFDR).xlDecoyStripped exampleCollaborators
          [recordMixed, recordDecoyXL, recordXL] [] [])) :=
  ⟨by intro t ht; simp at ht; rcases ht with h | h | h | h <;> rw [h] <;> norm_num,
   (inplace_cascade_independent_on_unit_interval ⟨1⟩ exampleCollaborators []
     [recordMixed, recordDecoyXL, recordXL] [] 0 [] [1 / 100, 5 / 100, 0, 1] "out"
     (by intro t ht; simp at ht; rcases ht with h | h | h | h <;> rw [h] <;> norm_num)).2.1⟩

/-! ## Output paths -/

theorem append_append_inj (p a b s : String) : p ++ a ++ s = p ++ b ++ s ↔ a = b := by
  constructor
  · intro h
    have h2 := congrArg String.data h
    simp only [String.data_append] at h2
    apply String.ext
    simpa using h2
  · intro h
    rw [h]

theorem idXML_ne_tsv (p q : String) : p ++ "_XLs.idXML" ≠ q ++ "_XLs.tsv" := by
  intro h
  have h2 := congrArg (fun s => s.data.getLast?) h
  simp [String.data_append] at h2

theorem xlCascade_paths (c : Collaborators) (protein_ids : List ProteinIdentification)
    (out_idxml : String) (ts : List ℚ) (xl_pi : List PeptideIdentification)
    (x : XLOutput) (hx : x ∈ (xlCascade c protein_ids out_idxml ts xl_pi).2) :
    x.idXML.path = out_idxml ++ c.number x.xlFDR 4 ++ "_XLs.idXML" ∧
    x.tsv.path = out_idxml ++ "_proteins" ++ c.number x.xlFDR 4 ++ "_XLs.tsv" := by
  induction ts generalizing xl_pi with
  | nil => simp [xlCascade] at hx
  | cons t rest ih =>
    rw [xlCascade_cons, List.mem_cons] at hx
    rcases hx with hx | hx
    · rw [hx]
      exact ⟨rfl, rfl⟩
    · exact ih _ hx

theorem xlCascade_map_paths (c : Collaborators) (protein_ids : List ProteinIdentification)
    (out_idxml : String) (ts : List ℚ) (xl_pi : List PeptideIdentification) :
    (xlCascade c protein_ids out_idxml ts xl_pi).2.map (fun x => x.idXML.path) =
      (ts.map fun t => c.number t 4).map (fun s => out_idxml ++ s ++ "_XLs.idXML") ∧
    (xlCascade c protein_ids out_idxml ts xl_pi).2.map (fun x => x.tsv.path) =
      (ts.map fun t => c.number t 4).map
        (fun s => out_idxml ++ "_proteins" ++ s ++ "_XLs.tsv") := by
  induction ts generalizing xl_pi with
  | nil => exact ⟨rfl, rfl⟩
  | cons t rest ih =>
    obtain ⟨h1, h2⟩ := ih (thresholdAlone xl_pi t)
    rw [xlCascade_cons]
    simp only [List.map_cons, h1, h2]
    exact ⟨rfl, rfl⟩

theorem normalizedThresholds_zero_one : normalizedThresholds [0, 1] = [1, 1] := by
  norm_num [normalizedThresholds, sortGreater, replace, List.insertionSort,
    List.orderedInsert]

theorem number_one : number 1 4 = "1.0000" := by decide

/-- Two different thresholds that `number` renders alike. -/
theorem number_rounding_collision :
    (1 : ℚ) / 100000 ≠ 1 / 50000 ∧
    number (1 / 100000) 4 = "0.0000" ∧ number (1 / 50000) 4 = "0.0000" := by
  have hn1 : ((1 : ℚ) / 100000).num = 1 := by simp
  have hd1 : ((1 : ℚ) / 100000).den = 100000 := by simp
  have hn2 : ((1 : ℚ) / 50000).num = 1 := by simp
  have hd2 : ((1 : ℚ) / 50000).den = 50000 := by simp
  have hneg1 : ¬ ((1 : ℚ) / 100000 < 0) := by norm_num
  have hneg2 : ¬ ((1 : ℚ) / 50000 < 0) := by norm_num
  refine ⟨by norm_num, ?_, ?_⟩
  · unfold number
    simp only [hn1, hd1, hneg1, if_false]
    decide
  · unfold number
    simp only [hn2, hd2, hneg2, if_false]
    decide

/-- C11 (amended): each iteration writes the idXML path `prefix + formatted
threshold + "_XLs.idXML"` and the TSV path `prefix + "_proteins" + formatted
threshold + "_XLs.tsv"`; two iterations write the same idXML path, and the
same TSV path, exactly when their thresholds are formatted alike, and an idXML
path is never a TSV path. So the paths of a call are pairwise distinct exactly
when the formatted thresholds of its iterations are. -/
theorem output_paths_keyed_by_formatted_threshold (self : RNPxlFDR) (c : Collaborators)
    (protein_ids : List ProteinIdentification)
    (peptide_ids pep_pi : List PeptideIdentification) (threshold : ℚ)
    (xl_pi : List PeptideIdentification) (ts : List ℚ) (out_idxml : String) :
    (∀ x ∈ (self.PeptideAndXLQValueAtPSMLevel c protein_ids peptide_ids pep_pi
        threshold xl_pi ts out_idxml).XLs,
      x.idXML.path = out_idxml ++ c.number x.xlFDR 4 ++ "_XLs.idXML" ∧
      x.tsv.path = out_idxml ++ "_proteins" ++ c.number x.xlFDR 4 ++ "_XLs.tsv") ∧
    (∀ x ∈ (self.PeptideAndXLQValueAtPSMLevel c protein_ids peptide_ids pep_pi
        threshold xl_pi ts out_idxml).XLs,
      ∀ y ∈ (self.PeptideAndXLQValueAtPSMLevel c protein_ids peptide_ids pep_pi
        threshold xl_pi ts out_idxml).XLs,
      (x.idXML.path = y.idXML.path ↔ c.number x.xlFDR 4 = c.number y.xlFDR 4) ∧
      (x.tsv.path = y.tsv.path ↔ c.number x.xlFDR 4 = c.number y.xlFDR 4) ∧
      x.idXML.path ≠ y.tsv.path) ∧
    (((self.PeptideAndXLQValueAtPSMLevel c protein_ids peptide_ids pep_pi threshold
        xl_pi ts out_idxml).XLs.map fun x => x.idXML.path).Nodup ↔
      ((normalizedThresholds ts).map fun t => c.number t 4).Nodup) ∧
    (((self.PeptideAndXLQValueAtPSMLevel c protein_ids peptide_ids pep_pi threshold
        xl_pi ts out_idxml).XLs.map fun x => x.tsv.path).Nodup ↔
      ((normalizedThresholds ts).map fun t => c.number t 4).Nodup) := by
  rw [RNPxlFDR.XLs_eq]
  have hpaths := xlCascade_paths c protein_ids out_idxml (normalizedThresholds ts)
    (self.xlDecoyStripped c peptide_ids pep_pi xl_pi)
  obtain ⟨hm1, hm2⟩ := xlCascade_map_paths c protein_ids out_idxml (normalizedThresholds ts)
    (self.xlDecoyStripped c peptide_ids pep_pi xl_pi)
  refine ⟨hpaths, ?_, ?_, ?_⟩
  · intro x hx y hy
    obtain ⟨hx1, hx2⟩ := hpaths x hx
    obtain ⟨hy1, hy2⟩ := hpaths y hy
    rw [hx1, hx2, hy1, hy2]
    exact ⟨append_append_inj _ _ _ _, append_append_inj _ _ _ _, idXML_ne_tsv _ _⟩
  · rw [hm1]
    exact List.nodup_map_iff (fun a b h => (append_append_inj _ _ _ _).mp h)
  · rw [hm2]
    exact List.nodup_map_iff (fun a b h => (append_append_inj _ _ _ _).mp h)

/-- C11 (as stated) fails: with the thresholds `[0.0, 1.0]` both iterations run
at threshold 1.0 and write the same idXML path and the same TSV path. -/
theorem output_paths_reused_for_equal_thresholds :
    ((⟨1⟩ : RNPxlFDR).PeptideAndXLQValueAtPSMLevel formattingCollaborators []
        [recordXL] [] 0 [] [0, 1] "out").XLs.map
        (fun x => (x.xlFDR, x.idXML.path, x.tsv.path)) =
      [(1, "out1.0000_XLs.idXML", "out_proteins1.0000_XLs.tsv"),
       (1, "out1.0000_XLs.idXML", "out_proteins1.0000_XLs.tsv")] ∧
    ¬ (((⟨1⟩ : RNPxlFDR).PeptideAndXLQValueAtPSMLevel formattingCollaborators []
        [recordXL] [] 0 [] [0, 1] "out").XLs.map fun x => x.idXML.path).Nodup ∧
    ¬ (((⟨1⟩ : RNPxlFDR).PeptideAndXLQValueAtPSMLevel formattingCollaborators []
        [recordXL] [] 0 [] [0, 1] "out").XLs.map fun x => x.tsv.path).Nodup := by
  have hid : "out" ++ "1.0000" ++ "_XLs.idXML" = "out1.0000_XLs.idXML" := by decide
  have htsv : "out" ++ "_proteins" ++ "1.0000" ++ "_XLs.tsv" =
      "out_proteins1.0000_XLs.tsv" := by decide
  have hnum : formattingCollaborators.number 1 4 = "1.0000" := number_one
  rw [RNPxlFDR.XLs_eq, normalizedThresholds_zero_one]
  simp only [xlCascade, xlIteration, List.map_cons, List.map_nil, hnum, hid, htsv]
  refine ⟨trivial, ?_, ?_⟩ <;> simp

/-! ## The accession partition is total -/

theorem hasPrefix_iff (s p : String) : hasPrefix s p = true ↔ ∃ rest : String, s = p ++ rest := by
  unfold hasPrefix
  rw [List.isPrefixOf_iff_prefix]
  constructor
  · rintro ⟨t, ht⟩
    refine ⟨⟨t⟩, ?_⟩
    apply String.ext
    rw [String.data_append, ht]
  · rintro ⟨rest, hrest⟩
    refine ⟨rest.data, ?_⟩
    rw [hrest, String.data_append]

theorem lookup_mapAccessionLoop_of_absent (hits : List ProteinHit)
    (maps : AccessionMap × AccessionMap) (target : Bool) (acc : String)
    (habsent : ∀ p ∈ hits, ¬ p.InClass target acc) :
    (mapOfClass (mapAccessionLoop hits 0 maps) target).lookup acc =
      (mapOfClass maps target).lookup acc := by
  apply Option.ext
  intro i
  rw [Option.mem_def, Option.mem_def, lookup_mapAccessionLoop]
  constructor
  · rintro (⟨⟨p, hp, hc⟩, _⟩ | ⟨_, h⟩)
    · exact absurd hc (habsent p (List.mem_iff_getElem?.mpr ⟨i, hp⟩))
    · exact h
  · intro h
    exact Or.inr ⟨habsent, h⟩

theorem mapAccessionLoop_index_class (hits : List ProteinHit) (target : Bool)
    (acc : String) (i : Nat)
    (h : (mapOfClass (mapAccessionLoop hits 0 ([], [])) target).lookup acc = some i) :
    ∃ p, hits[i]? = some p ∧ p.accession = acc ∧ p.hasTargetLabel = target := by
  rw [lookup_mapAccessionLoop] at h
  rcases h with ⟨⟨p, hp, hc⟩, _⟩ | ⟨_, h⟩
  · exact ⟨p, hp, hc.1, hc.2⟩
  · cases target <;> simp [mapOfClass] at h

/-- C15: a record falls into the target class exactly when the string of its
`target_decoy` annotation starts with `"target"`, so `target+decoy` is a
target and the empty string, a missing annotation and `decoy` are decoys; the
loop body assigns the record's index to its accession in the map of its class
and leaves the other map as it is; after the call a map holds, for an
accession without a record of its class in the list, what it held before; and
started on empty maps, the keys of the two maps together are the accessions of
the list, and no record is held by both maps. -/
theorem accession_partition_total (prot_id : ProteinIdentification)
    (acc2protein_targets acc2protein_decoys : AccessionMap) :
    (∀ p : ProteinHit,
      p.hasTargetLabel = true ↔ ∃ rest : String, p.targetDecoyString = "target" ++ rest) ∧
    (∀ (maps : AccessionMap × AccessionMap) (i : Nat) (p : ProteinHit),
      mapAccessionStep maps i p =
        (if p.hasTargetLabel = true then (mapAssign maps.1 p.accession i, maps.2)
         else (maps.1, mapAssign maps.2 p.accession i)) ∧
      (mapOfClass (mapAccessionStep maps i p) p.hasTargetLabel).lookup p.accession = some i ∧
      mapOfClass (mapAccessionStep maps i p) (!p.hasTargetLabel) =
        mapOfClass maps (!p.hasTargetLabel)) ∧
    (∀ (target : Bool) (acc : String),
      (∀ p ∈ prot_id.hits, ¬ p.InClass target acc) →
        (mapOfClass (RNPxlProteinReport.mapAccessionToTDProteins prot_id
            acc2protein_targets acc2protein_decoys) target).lookup acc =
          (mapOfClass (acc2protein_targets, acc2protein_decoys) target).lookup acc) ∧
    (∀ acc,
      (acc ∈ keys (RNPxlProteinReport.mapAccessionToTDProteins prot_id [] []).1 ∨
        acc ∈ keys (RNPxlProteinReport.mapAccessionToTDProteins prot_id [] []).2) ↔
      ∃ p ∈ prot_id.hits, p.accession = acc) ∧
    (∀ (a b : String) (i : Nat),
      ¬ ((RNPxlProteinReport.mapAccessionToTDProteins prot_id [] []).1.lookup a = some i ∧
         (RNPxlProteinReport.mapAccessionToTDProteins prot_id [] []).2.lookup b = some i)) ∧
    RNPxlProteinReport.mapAccessionToTDProteins proteinsLabels [] [] =
      ([("P1", 0), ("P5", 4)], [("P2", 1), ("P3", 2), ("P4", 3)]) := by
  refine ⟨?_, ?_, ?_, ?_, ?_, by decide⟩
  · intro p
    exact hasPrefix_iff p.targetDecoyString "target"
  · intro maps i p
    refine ⟨?_, ?_, ?_⟩
    · unfold mapAccessionStep
      cases p.hasTargetLabel <;> simp
    · rw [lookup_mapAccessionStep]
      simp
    · cases hl : p.hasTargetLabel <;> simp [mapAccessionStep, mapOfClass, hl]
  · intro target acc habsent
    exact lookup_mapAccessionLoop_of_absent prot_id.hits _ target acc habsent
  · intro acc
    have hT := (keys_mapAccessionLoop prot_id.hits 0 ([], []) true).2 acc
    have hD := (keys_mapAccessionLoop prot_id.hits 0 ([], []) false).2 acc
    have hT0 : acc ∉ keys (mapOfClass (([], []) : AccessionMap × AccessionMap) true) := by
      simp [mapOfClass, keys]
    have hD0 : acc ∉ keys (mapOfClass (([], []) : AccessionMap × AccessionMap) false) := by
      simp [mapOfClass, keys]
    constructor
    · rintro (h | h)
      · rcases hT.mp h with h0 | ⟨p, hp, hc⟩
        · exact absurd h0 hT0
        · exact ⟨p, hp, hc.1⟩
      · rcases hD.mp h with h0 | ⟨p, hp, hc⟩
        · exact absurd h0 hD0
        · exact ⟨p, hp, hc.1⟩
    · rintro ⟨p, hp, hacc⟩
      cases hl : p.hasTargetLabel
      · exact Or.inr (hD.mpr (Or.inr ⟨p, hp, hacc, hl⟩))
      · exact Or.inl (hT.mpr (Or.inr ⟨p, hp, hacc, hl⟩))
  · rintro a b i ⟨h1, h2⟩
    obtain ⟨p, hp, _, hpl⟩ := mapAccessionLoop_index_class prot_id.hits true a i h1
    obtain ⟨q, hq, _, hql⟩ := mapAccessionLoop_index_class prot_id.hits false b i h2
    rw [hp] at hq
    cases hq
    rw [hpl] at hql
    exact Bool.noConfusion hql

end OpenMS
